import Mathlib

/-!
# Verification of the Swiss snooker league engine

Shallow embedding of the core modules of the `swissleague` repository:

* `shared/constants.js`               — points scheme and status enums
* `admin/utils/helpers.js`            — `sortByStandings`, `calculateStandings`
* `admin/modules/players.js`          — `PlayerManager.recalculatePlayerStats`,
                                        `recalculateAllPlayerStats`, `updatePlayer`
* `admin/modules/scoring.js`          — `ScoringManager.updateRoundStatus`,
                                        `addFrame`, `updateFrame`, `deleteFrame`, `findMatch`
* `admin/modules/swiss-pairing.js`    — `SwissPairing.generatePairings`,
                                        `pairAllPlayers`, `selectByePlayer`,
                                        `hasPlayedBefore`, `createByeMatch`, `validatePairings`
* `admin/modules/rounds.js`           — `RoundManager.generateRound`, `createMatchFromPairing`

Modelling conventions: player/match ids are `Nat` (the JS code uses UUID
strings and only ever compares them for equality; `[a,b].sort()` keys on two
UUIDs are modelled by the ordered pair `(min, max)`); timestamps are `Nat`
parameters supplied by the caller (the JS code calls `new Date()`); fresh
match ids are drawn from a caller-supplied base counter (the JS code calls
`generateId()`); JS floating-point arithmetic for `strengthOfSchedule` is
modelled with `ℚ`; JS `null` is `Option.none`; a JS `throw` of `LeagueError`
is `Except.error`.
-/

/-- `ERROR_TYPES` from `shared/constants.js` (the kinds the core uses). -/
inductive ErrorType where
  | VALIDATION
  | STORAGE
  | PAIRING
  | NETWORK
  | GENERAL
deriving Repr, DecidableEq

/-- `LeagueError` from `admin/modules/storage.js`: a message plus a typed kind. -/
structure LeagueError where
  message : String
  etype : ErrorType
deriving Repr, DecidableEq

/-- `MATCH_STATUS` / `ROUND_STATUS` from `shared/constants.js`
(both use the same three string values). -/
inductive Status where
  | pending
  | inProgress
  | completed
deriving Repr, DecidableEq

/-- `POINTS.WIN` from `shared/constants.js`. -/
def POINTS_WIN : Nat := 2
/-- `POINTS.LOSS` from `shared/constants.js`. -/
def POINTS_LOSS : Nat := 0
/-- `POINTS.BYE` from `shared/constants.js`. -/
def POINTS_BYE : Nat := 2

/-- The `stats` record created by `PlayerManager.createPlayer` and rebuilt by
`recalculatePlayerStats` (admin/modules/players.js). -/
structure Stats where
  matchesPlayed : Nat
  matchesWon : Nat
  matchesLost : Nat
  framesWon : Nat
  framesLost : Nat
  points : Nat
  frameDifference : Int
  byesReceived : Nat
  strengthOfSchedule : ℚ
  buchholzScore : Nat
deriving Repr, DecidableEq

/-- The all-zero stats record (`createPlayer`, and the fresh accumulator at the
top of `recalculatePlayerStats`). -/
def emptyStats : Stats :=
  { matchesPlayed := 0, matchesWon := 0, matchesLost := 0, framesWon := 0
    framesLost := 0, points := 0, frameDifference := 0, byesReceived := 0
    strengthOfSchedule := 0, buchholzScore := 0 }

/-- A league player (admin/modules/players.js). -/
structure Player where
  id : Nat
  name : String
  active : Bool
  stats : Stats
deriving Repr, DecidableEq

/-- One frame of a match (created in `ScoringManager.addFrame`).
`winnerId` can be `none` when a corrupt non-bye match has `player2Id = null`
and player 2 "wins" the frame, mirroring the JS value `null`. -/
structure Frame where
  frameNumber : Nat
  player1Score : Nat
  player2Score : Nat
  winnerId : Option Nat
deriving Repr, DecidableEq

/-- A match (created by `RoundManager.createMatchFromPairing`). -/
structure Match where
  id : Nat
  player1Id : Nat
  player2Id : Option Nat
  status : Status
  frames : List Frame
  player1FramesWon : Nat
  player2FramesWon : Nat
  winnerId : Option Nat
  isBye : Bool
  completedAt : Option Nat
deriving Repr, DecidableEq

/-- A round (created by `RoundManager.generateRound`). -/
structure Round where
  roundNumber : Nat
  status : Status
  matchList : List Match
  generatedAt : Nat
deriving Repr, DecidableEq

/-- The `league` sub-object (admin/modules/league.js, `createLeague`). -/
structure League where
  id : Nat
  name : String
  bestOfFrames : Nat
  currentRound : Nat
  totalRounds : Nat
deriving Repr, DecidableEq

/-- The whole league-state document
`{ league, players, rounds, pairingHistory }`; `pairingHistory` entries are
the 2-element id arrays pushed by `generateRound`. -/
structure LeagueData where
  league : League
  players : List Player
  rounds : List Round
  pairingHistory : List (Nat × Nat)
deriving Repr, DecidableEq

/-- `Math.ceil(bestOfFrames / 2)`, the frames needed to win a match. -/
def framesToWin (bestOfFrames : Nat) : Nat := (bestOfFrames + 1) / 2

/-! ## Stable sorting (the JS `Array.prototype.sort` used with a comparator)

`sortLe le` is a stable insertion sort; JS `sort` is required to be stable,
and for the total preorders used by the code (`sortByStandings` and the bye
sort) a stable sort's output is determined, so this models the JS call. -/

/-- Insert `x` into `l` in front of the first element `y` with `le x y`. -/
def insertLe (le : α → α → Bool) (x : α) : List α → List α
  | [] => [x]
  | y :: ys => if le x y then x :: y :: ys else y :: insertLe le x ys

/-- Stable insertion sort by the boolean relation `le`. -/
def sortLe (le : α → α → Bool) : List α → List α
  | [] => []
  | x :: xs => insertLe le x (sortLe le xs)

/-- The comparator of `sortByStandings` (admin/utils/helpers.js), expressed as
"compares ≤ 0": points desc, then frameDifference desc, then framesWon desc,
then name ascending.  Note the source has no buchholz / SOS key. -/
def standingsLe (a b : Player) : Bool :=
  if a.stats.points ≠ b.stats.points then b.stats.points < a.stats.points
  else if a.stats.frameDifference ≠ b.stats.frameDifference then
    b.stats.frameDifference < a.stats.frameDifference
  else if a.stats.framesWon ≠ b.stats.framesWon then b.stats.framesWon < a.stats.framesWon
  else a.name ≤ b.name

/-- `sortByStandings` from admin/utils/helpers.js (the identical function also
appears in display/utils/helpers.js). -/
def sortByStandings (players : List Player) : List Player :=
  sortLe standingsLe players

/-- `calculateStandings` from admin/utils/helpers.js: active players only. -/
def calculateStandings (d : LeagueData) : List Player :=
  sortByStandings (d.players.filter (·.active))

/-! ## PlayerManager (admin/modules/players.js) -/

/-- `PlayerManager.updatePlayer` specialised to a stats update (the only use
the recalculation path makes of it). -/
def updatePlayer (d : LeagueData) (playerId : Nat) (stats : Stats) : LeagueData :=
  { d with players := d.players.map (fun p => if p.id = playerId then { p with stats := stats } else p) }

/-- One iteration of the match loop in `recalculatePlayerStats`: updates the
accumulated stats and opponent-id list for `playerId` with one match. -/
def pass1Step (playerId : Nat) (acc : Stats × List (Option Nat)) (m : Match) :
    Stats × List (Option Nat) :=
  if m.status ≠ Status.completed then acc
  else if m.isBye ∧ m.player1Id = playerId then
    ({ acc.1 with
        byesReceived := acc.1.byesReceived + 1
        matchesWon := acc.1.matchesWon + 1
        matchesPlayed := acc.1.matchesPlayed + 1
        points := acc.1.points + POINTS_BYE
        framesWon := acc.1.framesWon + m.player1FramesWon }, acc.2)
  else if m.player1Id = playerId then
    let s := { acc.1 with
        matchesPlayed := acc.1.matchesPlayed + 1
        framesWon := acc.1.framesWon + m.player1FramesWon
        framesLost := acc.1.framesLost + m.player2FramesWon }
    let s := if m.winnerId = some playerId then
        { s with matchesWon := s.matchesWon + 1, points := s.points + POINTS_WIN }
      else
        { s with matchesLost := s.matchesLost + 1, points := s.points + POINTS_LOSS }
    (s, acc.2 ++ [m.player2Id])
  else if m.player2Id = some playerId then
    let s := { acc.1 with
        matchesPlayed := acc.1.matchesPlayed + 1
        framesWon := acc.1.framesWon + m.player2FramesWon
        framesLost := acc.1.framesLost + m.player1FramesWon }
    let s := if m.winnerId = some playerId then
        { s with matchesWon := s.matchesWon + 1, points := s.points + POINTS_WIN }
      else
        { s with matchesLost := s.matchesLost + 1, points := s.points + POINTS_LOSS }
    (s, acc.2 ++ [some m.player1Id])
  else acc

/-- The first pass of `recalculatePlayerStats`: walk every match of every
round accumulating basic stats and the opponent-id list.  A pure function of
`(rounds, playerId)`. -/
def pass1 (rounds : List Round) (playerId : Nat) : Stats × List (Option Nat) :=
  rounds.foldl (fun acc r => r.matchList.foldl (pass1Step playerId) acc) (emptyStats, [])

/-- The win-rate contribution one opponent id adds to `totalOpponentWinRate`
(0 when the opponent is not found or has no matches, as in the source). -/
def oppWinRate (players : List Player) (oid : Option Nat) : ℚ :=
  match players.find? (fun p => some p.id = oid) with
  | some opp =>
      if opp.stats.matchesPlayed > 0 then
        (opp.stats.matchesWon : ℚ) / (opp.stats.matchesPlayed : ℚ)
      else 0
  | none => 0

/-- The points contribution one opponent id adds to `totalOpponentPoints`. -/
def oppPoints (players : List Player) (oid : Option Nat) : Nat :=
  match players.find? (fun p => some p.id = oid) with
  | some opp => opp.stats.points
  | none => 0

/-- The full stats record `recalculatePlayerStats` builds for `playerId`:
pass 1 over the rounds, `frameDifference`, then SOS / Buchholz read from the
*current* stats of the players list (the incremental behaviour of the
source). -/
def computeStats (players : List Player) (rounds : List Round) (playerId : Nat) : Stats :=
  let p1 := pass1 rounds playerId
  let s := { p1.1 with frameDifference := (p1.1.framesWon : Int) - (p1.1.framesLost : Int) }
  if p1.2.length > 0 then
    { s with
        strengthOfSchedule := ((p1.2.map (oppWinRate players)).sum) / (p1.2.length : ℚ)
        buchholzScore := (p1.2.map (oppPoints players)).sum }
  else s

/-- `PlayerManager.recalculatePlayerStats` (admin/modules/players.js):
recompute one player's stats from the complete match history, reading other
players' current stats for SOS / Buchholz. -/
def recalculatePlayerStats (d : LeagueData) (playerId : Nat) : LeagueData :=
  match d.players.find? (fun p => p.id = playerId) with
  | none => d
  | some _ => updatePlayer d playerId (computeStats d.players d.rounds playerId)

/-- `recalculatePlayerStats` applied to a possibly-null id (the JS call sites
pass `match.player2Id`, which is `null` on corrupt data; `find` by `null`
fails and the state is returned unchanged). -/
def recalcOpt (d : LeagueData) (oid : Option Nat) : LeagueData :=
  match oid with
  | some pid => recalculatePlayerStats d pid
  | none => d

/-- `PlayerManager.recalculateAllPlayerStats`: recompute every player in list
order, threading the state. -/
def recalculateAllPlayerStats (d : LeagueData) : LeagueData :=
  d.players.foldl (fun acc p => recalculatePlayerStats acc p.id) d

/-! ## ScoringManager (admin/modules/scoring.js, src/unnamed/part_010) -/

/-- `ScoringManager.updateRoundStatus`: mark the round completed when every
match is completed (and there is at least one); otherwise return the round
unchanged — in particular an already-`completed` status is never revoked. -/
def updateRoundStatus (r : Round) : Round :=
  if r.matchList.all (fun m => m.status = Status.completed) ∧ r.matchList ≠ [] then
    { r with status := Status.completed }
  else r

/-- The round scan of `ScoringManager.findMatch`. -/
def findMatchInRounds : List Round → Nat → Option (Match × Round)
  | [], _ => none
  | r :: rs, mid =>
    match r.matchList.find? (fun m => m.id = mid) with
    | some m => some (m, r)
    | none => findMatchInRounds rs mid

/-- `ScoringManager.findMatch`. -/
def findMatch (d : LeagueData) (mid : Nat) : Option (Match × Round) :=
  findMatchInRounds d.rounds mid

/-- `ScoringManager.addFrame`: validate, append the frame, update frame
counts and match status, refresh the round status, and (when the match
completed) recalculate the two participants' stats.  `now` stands for
`new Date()`. -/
def addFrame (d : LeagueData) (mid p1s p2s now : Nat) : Except LeagueError LeagueData :=
  match findMatch d mid with
  | none => .error ⟨"Match not found", .VALIDATION⟩
  | some (m, round) =>
    if m.isBye then .error ⟨"Cannot add frames to bye match", .VALIDATION⟩
    else if m.status = Status.completed then
      .error ⟨"Match is already completed", .VALIDATION⟩
    else
      let ftw := framesToWin d.league.bestOfFrames
      if ftw ≤ m.player1FramesWon ∨ ftw ≤ m.player2FramesWon then
        .error ⟨"Match is already decided", .VALIDATION⟩
      else
        let winnerId : Option Nat := if p2s < p1s then some m.player1Id else m.player2Id
        let frame : Frame := ⟨m.frames.length + 1, p1s, p2s, winnerId⟩
        let m1 := { m with
            frames := m.frames ++ [frame]
            player1FramesWon := m.player1FramesWon + (if winnerId = some m.player1Id then 1 else 0)
            player2FramesWon := m.player2FramesWon + (if winnerId = m.player2Id then 1 else 0)
            status := Status.inProgress }
        let m2 :=
          if ftw ≤ m1.player1FramesWon then
            { m1 with status := Status.completed, winnerId := some m.player1Id, completedAt := some now }
          else if ftw ≤ m1.player2FramesWon then
            { m1 with status := Status.completed, winnerId := m.player2Id, completedAt := some now }
          else m1
        let updatedRound := updateRoundStatus
          { round with matchList := round.matchList.map (fun x => if x.id = mid then m2 else x) }
        let newRounds := d.rounds.map
          (fun r => if r.roundNumber = round.roundNumber then updatedRound else r)
        let d1 := { d with rounds := newRounds }
        let d2 :=
          if m2.status = Status.completed then
            recalcOpt (recalculatePlayerStats d1 m.player1Id) m.player2Id
          else d1
        .ok d2

/-- Replace (the first) frame with the given `frameNumber`; `none` when no
frame matches, mirroring the `findIndex === -1` check in `updateFrame`. -/
def replaceFrame (fn : Nat) (f' : Frame → Frame) : List Frame → Option (List Frame)
  | [] => none
  | f :: fs =>
    if f.frameNumber = fn then some (f' f :: fs)
    else (replaceFrame fn f' fs).map (f :: ·)

/-- `ScoringManager.updateFrame`: edit a frame's scores, recount the frame
tallies from scratch, re-derive the match status (possibly un-completing it),
refresh the round status and recalculate both participants' stats. -/
def updateFrame (d : LeagueData) (mid frameNumber p1s p2s now : Nat) :
    Except LeagueError LeagueData :=
  match findMatch d mid with
  | none => .error ⟨"Match not found", .VALIDATION⟩
  | some (m, round) =>
    let winnerId : Option Nat := if p2s < p1s then some m.player1Id else m.player2Id
    match replaceFrame frameNumber
        (fun f => { f with player1Score := p1s, player2Score := p2s, winnerId := winnerId })
        m.frames with
    | none => .error ⟨"Frame not found", .VALIDATION⟩
    | some updatedFrames =>
      let p1fw := updatedFrames.countP (fun f => f.winnerId = some m.player1Id)
      let p2fw := updatedFrames.countP (fun f => ¬ (f.winnerId = some m.player1Id))
      let ftw := framesToWin d.league.bestOfFrames
      let base := { m with frames := updatedFrames, player1FramesWon := p1fw, player2FramesWon := p2fw }
      let m2 :=
        if ftw ≤ p1fw then
          { base with status := Status.completed, winnerId := some m.player1Id
                      completedAt := some (m.completedAt.getD now) }
        else if ftw ≤ p2fw then
          { base with status := Status.completed, winnerId := m.player2Id
                      completedAt := some (m.completedAt.getD now) }
        else
          { base with status := Status.inProgress, winnerId := none, completedAt := none }
      let updatedRound := updateRoundStatus
        { round with matchList := round.matchList.map (fun x => if x.id = mid then m2 else x) }
      let newRounds := d.rounds.map
        (fun r => if r.roundNumber = round.roundNumber then updatedRound else r)
      let d1 := { d with rounds := newRounds }
      .ok (recalcOpt (recalculatePlayerStats d1 m.player1Id) m.player2Id)

/-- `ScoringManager.deleteFrame`: drop the last frame, recount tallies,
reset the match to pending / in-progress, refresh the round status and
recalculate both participants' stats. -/
def deleteFrame (d : LeagueData) (mid frameNumber : Nat) : Except LeagueError LeagueData :=
  match findMatch d mid with
  | none => .error ⟨"Match not found", .VALIDATION⟩
  | some (m, round) =>
    if frameNumber ≠ m.frames.length then
      .error ⟨"Can only delete the most recent frame", .VALIDATION⟩
    else
      let updatedFrames := m.frames.dropLast
      let p1fw := updatedFrames.countP (fun f => f.winnerId = some m.player1Id)
      let p2fw := updatedFrames.countP (fun f => ¬ (f.winnerId = some m.player1Id))
      let m2 := { m with
          frames := updatedFrames
          player1FramesWon := p1fw
          player2FramesWon := p2fw
          status := if updatedFrames.isEmpty then Status.pending else Status.inProgress
          winnerId := none
          completedAt := none }
      let updatedRound := updateRoundStatus
        { round with matchList := round.matchList.map (fun x => if x.id = mid then m2 else x) }
      let newRounds := d.rounds.map
        (fun r => if r.roundNumber = round.roundNumber then updatedRound else r)
      let d1 := { d with rounds := newRounds }
      .ok (recalcOpt (recalculatePlayerStats d1 m.player1Id) m.player2Id)

/-! ## SwissPairing (admin/modules/swiss-pairing.js) -/

/-- A pairing produced by the engine: either `{player1, player2, isRepeat}`
or the bye object `{player1, isBye, framesAwarded}`. -/
structure Pairing where
  player1 : Player
  player2 : Option Player
  isRepeat : Bool
  isBye : Bool
  framesAwarded : Nat
deriving Repr, DecidableEq

/-- `SwissPairing.hasPlayedBefore`: the pairing history holds unordered
pairs, checked in both orientations. -/
def hasPlayedBefore (player1Id player2Id : Nat) (hist : List (Nat × Nat)) : Bool :=
  hist.any (fun pr => (pr.1 = player1Id ∧ pr.2 = player2Id) ∨ (pr.1 = player2Id ∧ pr.2 = player1Id))

/-- The `while (available.length >= 2)` loop of `SwissPairing.pairAllPlayers`,
with explicit fuel (one unit per iteration; the initial list length is always
enough).  Each iteration pairs the best-remaining player with the first
later-ranked candidate not played before, or with the immediately next-ranked
player (marked `isRepeat`) when all candidates were played before. -/
def pairLoop (hist : List (Nat × Nat)) : Nat → List Player → List Pairing
  | 0, _ => []
  | _ + 1, [] => []
  | _ + 1, [_] => []
  | fuel + 1, p1 :: rest =>
    match rest.findIdx? (fun c => ¬ hasPlayedBefore p1.id c.id hist) with
    | some j => ⟨p1, rest[j]?, false, false, 0⟩ :: pairLoop hist fuel (rest.eraseIdx j)
    | none => ⟨p1, rest[0]?, true, false, 0⟩ :: pairLoop hist fuel (rest.eraseIdx 0)

/-- `SwissPairing.pairAllPlayers`. -/
def pairAllPlayers (players : List Player) (hist : List (Nat × Nat)) : List Pairing :=
  pairLoop hist players.length players

/-- The per-player bye count computed inside `selectByePlayer`: one per round
containing a bye match of this player (`round.matches.find`). -/
def byeCount (rounds : List Round) (p : Player) : Nat :=
  rounds.countP (fun r =>
    r.matchList.any (fun m => m.isBye ∧ (m.player1Id = p.id ∨ m.player2Id = some p.id)))

/-- The bye-selection comparator as "compares ≤ 0": bye count ascending, then
standing index descending (give the bye to the lowest-ranked of the tied). -/
def byeLe (sorted : List Player) (a b : Player × Nat) : Bool :=
  if a.2 ≠ b.2 then a.2 < b.2
  else sorted.indexOf b.1 ≤ sorted.indexOf a.1

/-- `SwissPairing.selectByePlayer`: `none` only on an empty input (where the
JS code would fault reading `byeCounts[0]`; every call site passes a
non-empty list). -/
def selectByePlayer (sortedPlayers : List Player) (rounds : List Round) : Option Player :=
  let byeCounts := sortedPlayers.map (fun p => (p, byeCount rounds p))
  (sortLe (byeLe sortedPlayers) byeCounts).head?.map (·.1)

/-- `SwissPairing.createByeMatch`. -/
def createByeMatch (p : Player) (bestOfFrames : Nat) : Pairing :=
  ⟨p, none, false, true, framesToWin bestOfFrames⟩

/-- `SwissPairing.generatePairings`: rank the active players, pull out a bye
recipient when the count is odd, pair the rest greedily, and append the bye
pairing.  Fewer than 2 active players is a `PAIRING` error. -/
def generatePairings (d : LeagueData) : Except LeagueError (List Pairing) :=
  let activePlayers := d.players.filter (·.active)
  if activePlayers.length < 2 then
    .error ⟨"Need at least 2 active players to generate pairings", .PAIRING⟩
  else
    let sortedPlayers := sortByStandings activePlayers
    if sortedPlayers.length % 2 ≠ 0 then
      match selectByePlayer sortedPlayers d.rounds with
      | some byePlayer =>
        let pairablePlayers := sortedPlayers.filter (fun p => p.id ≠ byePlayer.id)
        .ok (pairAllPlayers pairablePlayers d.pairingHistory
              ++ [createByeMatch byePlayer d.league.bestOfFrames])
      | none => .error ⟨"No bye player found", .GENERAL⟩
    else
      .ok (pairAllPlayers sortedPlayers d.pairingHistory)

/-- The ids a pairing covers (used by the validator's `pairedPlayerIds` set). -/
def pairingEntryIds (pr : Pairing) : List Nat :=
  pr.player1.id :: (match pr.player2 with | some q => [q.id] | none => [])

/-- The unordered-pair key `[id1, id2].sort().join('-')` of the validator,
modelled as the ordered pair `(min, max)`.  A non-bye pairing always carries a
`player2` when produced by the engine; a missing one degenerates to the
player-1 id, mirroring the junk key the JS would build from `undefined`. -/
def pairingKey (pr : Pairing) : Nat × Nat :=
  let a := pr.player1.id
  let b := (match pr.player2 with | some q => q.id | none => pr.player1.id)
  if a ≤ b then (a, b) else (b, a)

/-- The duplicate-pair scan of `validatePairings` (`pairingSet` grows on every
non-bye pairing, an error fires when a key repeats). -/
def dupErrors : List Pairing → List (Nat × Nat) → List String
  | [], _ => []
  | pr :: rest, seen =>
    if pr.isBye then dupErrors rest seen
    else if pairingKey pr ∈ seen then
      ("Duplicate pairing: " ++ pr.player1.name) :: dupErrors rest (pairingKey pr :: seen)
    else dupErrors rest (pairingKey pr :: seen)

/-- The `{valid, errors}` object returned by the validators. -/
structure ValidationResult where
  valid : Bool
  errors : List String
deriving Repr, DecidableEq

/-- `SwissPairing.validatePairings`: every active player covered, no
duplicate unordered pair, at most one bye. -/
def validatePairings (pairings : List Pairing) (activePlayers : List Player) : ValidationResult :=
  let pairedPlayerIds := pairings.flatMap pairingEntryIds
  let missing := (activePlayers.filter (fun p => ¬ p.id ∈ pairedPlayerIds)).map
    (fun p => "Player " ++ p.name ++ " is not included in pairings")
  let dups := dupErrors pairings []
  let byes := if 1 < pairings.countP (·.isBye) then ["Multiple byes detected"] else []
  let errors := missing ++ dups ++ byes
  ⟨errors.isEmpty, errors⟩

/-! ## RoundManager (admin/modules/rounds.js) -/

/-- `RoundManager.createMatchFromPairing`; `mid` stands for the fresh
`generateId()` value and `now` for `new Date()`. -/
def createMatchFromPairing (pr : Pairing) (bestOfFrames mid now : Nat) : Match :=
  if pr.isBye then
    { id := mid, player1Id := pr.player1.id, player2Id := none
      status := Status.completed, frames := []
      player1FramesWon := framesToWin bestOfFrames, player2FramesWon := 0
      winnerId := some pr.player1.id, isBye := true, completedAt := some now }
  else
    { id := mid, player1Id := pr.player1.id
      player2Id := (match pr.player2 with | some q => some q.id | none => none)
      status := Status.pending, frames := []
      player1FramesWon := 0, player2FramesWon := 0
      winnerId := none, isBye := false, completedAt := none }

/-- `RoundManager.generateRound`: generate pairings, self-validate them,
create the matches, append a round numbered `league.currentRound`, and extend
the pairing history with every non-bye pair.  `idBase` numbers the fresh
match ids, `now` stands for `new Date()`.  Note the function never checks
whether a round with this number already exists nor whether the current round
is complete. -/
def generateRound (d : LeagueData) (idBase now : Nat) : Except LeagueError LeagueData :=
  match generatePairings d with
  | .error e => .error e
  | .ok pairings =>
    let activePlayers := d.players.filter (·.active)
    let validation := validatePairings pairings activePlayers
    if ¬ validation.valid then
      .error ⟨"Pairing validation failed: " ++ String.intercalate ", " validation.errors, .PAIRING⟩
    else
      let ms := (pairings.enum).map
        (fun pi => createMatchFromPairing pi.2 d.league.bestOfFrames (idBase + pi.1) now)
      let round : Round :=
        { roundNumber := d.league.currentRound, status := Status.pending
          matchList := ms, generatedAt := now }
      let newHist := d.pairingHistory ++ (pairings.filter (fun pr => ¬ pr.isBye)).map
        (fun pr => (pr.player1.id, (match pr.player2 with | some q => q.id | none => pr.player1.id)))
      .ok { d with rounds := d.rounds ++ [round], pairingHistory := newHist }

/-! ## Concrete fixtures used by counterexamples and witnesses -/

/-- An active player with the all-zero stats record. -/
def freshPlayer (i : Nat) (n : String) : Player := ⟨i, n, true, emptyStats⟩

/-- An active player whose only non-zero stat is a points total (used to keep
concrete standings comparisons away from the name tiebreak). -/
def pointsPlayer (i : Nat) (n : String) (pts : Nat) : Player :=
  ⟨i, n, true, ⟨0, 0, 0, 0, 0, pts, 0, 0, 0, 0⟩⟩

/-- Two players, one completed best-of-1 match that player 2 (listed second)
won 1-0.  Both stats records are still the all-zero ones, as right after
loading raw match data. -/
def dTwoPlayersOneMatch : LeagueData :=
  { league := ⟨0, "L", 1, 1, 3⟩
    players := [freshPlayer 1 "A", freshPlayer 2 "B"]
    rounds := [⟨1, Status.completed,
      [⟨10, 1, some 2, Status.completed, [⟨1, 10, 60, some 2⟩], 0, 1, some 2, false, some 0⟩], 0⟩]
    pairingHistory := [(1, 2)] }

/-- Three players; player 1 beat player 3 in round 1 (completed), and the
round-2 match of players 1 and 2 is still pending with no frames.  Every
stats record holds the correct from-scratch values for this history
(player 3's Buchholz is 2 = player 1's points). -/
def dThreePlayersPending : LeagueData :=
  { league := ⟨0, "L", 1, 1, 3⟩
    players := [
      ⟨1, "A", true, ⟨1, 1, 0, 1, 0, 2, 1, 0, 0, 0⟩⟩,
      freshPlayer 2 "B",
      ⟨3, "C", true, ⟨1, 0, 1, 0, 1, 0, -1, 0, 1, 2⟩⟩]
    rounds := [
      ⟨1, Status.completed,
        [⟨10, 1, some 3, Status.completed, [⟨1, 50, 10, some 1⟩], 1, 0, some 1, false, some 0⟩], 0⟩,
      ⟨2, Status.pending, [⟨20, 1, some 2, Status.pending, [], 0, 0, none, false, none⟩], 1⟩]
    pairingHistory := [(1, 3), (1, 2)] }

/-- Two players with equal points; `playerP` has the strictly larger
Buchholz score, `playerQ` the larger frame difference. -/
def playerP : Player := ⟨1, "P", true, ⟨0, 0, 0, 0, 0, 2, 0, 0, 0, 10⟩⟩

/-- See `playerP`. -/
def playerQ : Player := ⟨2, "Q", true, ⟨0, 0, 0, 0, 0, 2, 5, 0, 0, 0⟩⟩

/-- A completed round holding a single completed best-of-1 match (player 1
won the only frame 50-10). -/
def dCompletedRound : LeagueData :=
  { league := ⟨0, "L", 1, 1, 3⟩
    players := [freshPlayer 1 "A", freshPlayer 2 "B"]
    rounds := [⟨1, Status.completed,
      [⟨10, 1, some 2, Status.completed, [⟨1, 50, 10, some 1⟩], 1, 0, some 1, false, some 0⟩], 0⟩]
    pairingHistory := [(1, 2)] }

/-- Two active players with distinct points, no rounds yet,
`currentRound = 1`. -/
def dTwoFresh : LeagueData :=
  { league := ⟨0, "L", 3, 1, 3⟩
    players := [pointsPlayer 1 "A" 2, pointsPlayer 2 "B" 0]
    rounds := []
    pairingHistory := [] }

/-- One pending best-of-3 match between two fresh players. -/
def dPendingMatch : LeagueData :=
  { league := ⟨0, "L", 3, 1, 3⟩
    players := [freshPlayer 1 "A", freshPlayer 2 "B"]
    rounds := [⟨1, Status.pending, [⟨10, 1, some 2, Status.pending, [], 0, 0, none, false, none⟩], 0⟩]
    pairingHistory := [(1, 2)] }

/-- A bye match for player 1 next to a fresh opponent pool. -/
def dByeMatch : LeagueData :=
  { league := ⟨0, "L", 3, 1, 3⟩
    players := [freshPlayer 1 "A", freshPlayer 2 "B", freshPlayer 3 "C"]
    rounds := [⟨1, Status.pending,
      [⟨10, 1, none, Status.completed, [], 2, 0, some 1, true, some 0⟩,
       ⟨11, 2, some 3, Status.pending, [], 0, 0, none, false, none⟩], 0⟩]
    pairingHistory := [(2, 3)] }

/-- Five active players (odd count) with strictly decreasing points and no
history. -/
def dFivePlayers : LeagueData :=
  { league := ⟨0, "L", 5, 1, 3⟩
    players := [pointsPlayer 1 "A" 8, pointsPlayer 2 "B" 6, pointsPlayer 3 "C" 4,
                pointsPlayer 4 "D" 2, pointsPlayer 5 "E" 0]
    rounds := []
    pairingHistory := [] }

/-- A pairing covers a player id (the validator's membership test). -/
def pairingHasId (pr : Pairing) (pid : Nat) : Bool := pid ∈ pairingEntryIds pr

/-- The stats fields pass 1 derives purely from the rounds (everything
except `strengthOfSchedule` and `buchholzScore`). -/
def statsKey (s : Stats) : Nat × Nat × Nat × Nat × Nat × Nat × Int × Nat :=
  (s.matchesPlayed, s.matchesWon, s.matchesLost, s.framesWon, s.framesLost,
    s.points, s.frameDifference, s.byesReceived)

/-- Everything about a player except the two schedule-strength stats. -/
def playerKey (p : Player) :
    Nat × String × Bool × (Nat × Nat × Nat × Nat × Nat × Nat × Int × Nat) :=
  (p.id, p.name, p.active, statsKey p.stats)

/-- The settled pass-1 stats of a player id, a pure function of the rounds. -/
def settledKey (rounds : List Round) (pid : Nat) :
    Nat × Nat × Nat × Nat × Nat × Nat × Int × Nat :=
  statsKey (computeStats [] rounds pid)

/-- Folding `recalculatePlayerStats` over a list of player ids. -/
def foldIds (u : LeagueData) (L : List Nat) : LeagueData :=
  L.foldl recalculatePlayerStats u

/-- The players' settled key as a function of their current key. -/
def settledOfKey (rounds : List Round)
    (k : Nat × String × Bool × (Nat × Nat × Nat × Nat × Nat × Nat × Int × Nat)) :
    Nat × String × Bool × (Nat × Nat × Nat × Nat × Nat × Nat × Int × Nat) :=
  (k.1, k.2.1, k.2.2.1, settledKey rounds k.1)

/-- The invariant relation carried through the recomputation fold. -/
def keyAndSync (L : List Nat) (p q : Player) : Prop :=
  playerKey p = playerKey q ∧ (p = q ∨ p.id ∈ L)

/-! ## C1 — frame mutations do not fully recompute stats -/

/-- C1: the claim that every frame mutation leaves every player's stats equal
to a from-scratch recomputation is FALSE on the code.  In
`dThreePlayersPending`, completing the pending match of players 1 and 2 via
`addFrame` recalculates players 1 and 2 only: the returned state still shows
buchholzScore 2 for player 3, while recomputing player 3 from scratch over
the complete match history of the very same returned state yields 4 (their
opponent, player 1, now has 4 points).  The per-player
`recalculatePlayerStats(data, playerId)` shortcut leaves third parties
stale, contradicting the spec's "never takes a single player id as a
shortcut". -/
theorem addFrame_stale_third_player :
    (addFrame dThreePlayersPending 20 60 20 5).toOption.map
        (fun s => (s.players.map (fun p => (p.id, p.stats.buchholzScore)),
                   (recalculatePlayerStats s 3).players.map
                     (fun p => (p.id, p.stats.buchholzScore))))
      = some ([(1, 0), (2, 4), (3, 2)], [(1, 0), (2, 4), (3, 4)]) := by decide

/-! ## C2 — the standings comparator has no buchholz / SOS keys -/

/-- C2: the claimed six-key order (points, buchholz, SOS, frame difference,
frames won, name) is FALSE on the code: `sortByStandings` compares points,
frame difference, frames won and name only.  `playerP` and `playerQ` have
equal points and `playerP` the strictly greater buchholzScore, yet the code
orders `playerQ` (better frame difference) first. -/
theorem sortByStandings_ignores_buchholz :
    sortByStandings [playerP, playerQ] = [playerQ, playerP] ∧
    playerP.stats.points = playerQ.stats.points ∧
    playerQ.stats.buchholzScore < playerP.stats.buchholzScore := by decide

/-! ## C3 — recomputing all stats is not idempotent (but settles) -/

/-- C3 counterexample: one application of `recalculateAllPlayerStats` is not
a fixed point.  On `dTwoPlayersOneMatch` the first pass computes player 1's
SOS/Buchholz from player 2's still-zero stats (player 2 is recomputed
later), so a second pass changes player 1's buchholzScore from 0 to 2. -/
theorem recalculateAllPlayerStats_not_idempotent :
    (recalculateAllPlayerStats (recalculateAllPlayerStats dTwoPlayersOneMatch)).players.map
        (fun p => (p.id, p.stats.buchholzScore))
      ≠ (recalculateAllPlayerStats dTwoPlayersOneMatch).players.map
        (fun p => (p.id, p.stats.buchholzScore)) := by decide

/-! ## C4 — deleting a frame never un-completes the round -/

/-- C4: the claim that after every frame mutation the round status is
`completed` iff all matches are completed is FALSE on the code:
`updateRoundStatus` only ever upgrades to `completed` and never reverts.  In
`dCompletedRound`, deleting the only frame of the only (completed) match
returns the match to `pending` while the round status remains `completed` —
the code's own comment says the round should go "back to in-progress". -/
theorem deleteFrame_leaves_round_completed :
    (deleteFrame dCompletedRound 10 1).toOption.map
        (fun s => s.rounds.map (fun r => (r.status, r.matchList.map (·.status))))
      = some [(Status.completed, [Status.pending])] := by decide

/-! ## Support lemmas on the scoring path -/

/-- `updateRoundStatus` only ever touches the status field. -/
theorem updateRoundStatus_matchList (r : Round) :
    (updateRoundStatus r).matchList = r.matchList := by
  unfold updateRoundStatus; split <;> rfl

/-- `recalculatePlayerStats` only rewrites player stats. -/
theorem recalculatePlayerStats_rounds (d : LeagueData) (pid : Nat) :
    (recalculatePlayerStats d pid).rounds = d.rounds := by
  unfold recalculatePlayerStats updatePlayer; split <;> rfl

/-- `recalcOpt` only rewrites player stats. -/
theorem recalcOpt_rounds (d : LeagueData) (oid : Option Nat) :
    (recalcOpt d oid).rounds = d.rounds := by
  cases oid with
  | none => rfl
  | some pid => exact recalculatePlayerStats_rounds d pid

/-- A successful `findMatch` returns a member round, a member match of that
round, and a match carrying the requested id. -/
theorem findMatchInRounds_mem :
    ∀ (rounds : List Round) (mid : Nat) (m : Match) (r : Round),
      findMatchInRounds rounds mid = some (m, r) →
      r ∈ rounds ∧ m ∈ r.matchList ∧ m.id = mid := by
  intro rounds
  induction rounds with
  | nil => intro mid m r h; simp [findMatchInRounds] at h
  | cons r0 rs ih =>
    intro mid m r h
    unfold findMatchInRounds at h
    cases hf : r0.matchList.find? (fun mm => mm.id = mid) with
    | some m0 =>
      rw [hf] at h
      have hm : m0 = m ∧ r0 = r := by
        have := h
        simp only [Option.some.injEq, Prod.mk.injEq] at this
        exact this
      rcases hm with ⟨hm1, hm2⟩
      subst hm1; subst hm2
      refine ⟨List.mem_cons_self _ _, List.mem_of_find?_eq_some hf, ?_⟩
      have := List.find?_some hf
      simpa using this
    | none =>
      rw [hf] at h
      obtain ⟨h1, h2, h3⟩ := ih mid m r h
      exact ⟨List.mem_cons_of_mem _ h1, h2, h3⟩

/-! ## C8 — addFrame rejects byes, completed and decided matches -/

/-- C8: whenever the target match of `addFrame` is a bye, already completed,
or already decided (a side has reached `ceil(bestOfFrames/2)` frames), the
call returns a typed VALIDATION error; no state is produced, so the input
league state is untouched and no frame is appended. -/
theorem addFrame_rejects_bye_completed_decided :
    ∀ (d : LeagueData) (mid p1s p2s now : Nat) (m : Match) (r : Round),
      findMatch d mid = some (m, r) →
      (m.isBye = true ∨ m.status = Status.completed ∨
        framesToWin d.league.bestOfFrames ≤ m.player1FramesWon ∨
        framesToWin d.league.bestOfFrames ≤ m.player2FramesWon) →
      ∃ msg, addFrame d mid p1s p2s now = Except.error ⟨msg, ErrorType.VALIDATION⟩ := by
  intro d mid p1s p2s now m r hfind hcond
  unfold addFrame
  rw [hfind]
  by_cases hb : m.isBye = true
  · exact ⟨"Cannot add frames to bye match", by simp [hb]⟩
  · by_cases hc : m.status = Status.completed
    · exact ⟨"Match is already completed", by simp [hb, hc]⟩
    · have hd : framesToWin d.league.bestOfFrames ≤ m.player1FramesWon ∨
          framesToWin d.league.bestOfFrames ≤ m.player2FramesWon := by
        rcases hcond with h | h | h | h
        · exact absurd h hb
        · exact absurd h hc
        · exact Or.inl h
        · exact Or.inr h
      exact ⟨"Match is already decided", by simp [hb, hc, hd]⟩

/-- Witness for C8 at the bye match of `dByeMatch`. -/
theorem addFrame_rejects_bye_completed_decided_witness :
    ∃ msg, addFrame dByeMatch 10 50 10 0 = Except.error ⟨msg, ErrorType.VALIDATION⟩ :=
  addFrame_rejects_bye_completed_decided dByeMatch 10 50 10 0
    ⟨10, 1, none, Status.completed, [], 2, 0, some 1, true, some 0⟩
    ⟨1, Status.pending,
      [⟨10, 1, none, Status.completed, [], 2, 0, some 1, true, some 0⟩,
       ⟨11, 2, some 3, Status.pending, [], 0, 0, none, false, none⟩], 0⟩
    (by decide) (by decide)

/-- The tail of every scoring mutation: whichever branch runs, the rounds
are those of the state entering the recalculation step. -/
theorem ite_recalc_rounds (c : Prop) [Decidable c] (d1 : LeagueData) (x : Nat) (y : Option Nat) :
    (if c then recalcOpt (recalculatePlayerStats d1 x) y else d1).rounds = d1.rounds := by
  split
  · rw [recalcOpt_rounds, recalculatePlayerStats_rounds]
  · rfl

/-! ## C9 — equal frame scores award the frame to player 2 -/

/-- C9: when `addFrame` is reached with equal scores (the tie check lives in
a different layer), the appended frame's `winnerId` is `player2Id` — the code
computes player 1 as winner only on a strictly greater score — and player 2's
frame tally, not player 1's, is incremented. -/
theorem addFrame_equal_scores_awards_player2 :
    ∀ (d : LeagueData) (mid sc now : Nat) (m : Match) (r : Round),
      findMatch d mid = some (m, r) →
      m.isBye = false →
      m.status ≠ Status.completed →
      m.player1FramesWon < framesToWin d.league.bestOfFrames →
      m.player2FramesWon < framesToWin d.league.bestOfFrames →
      m.player2Id ≠ some m.player1Id →
      ∃ d', addFrame d mid sc sc now = Except.ok d' ∧
        ∃ r', r' ∈ d'.rounds ∧ ∃ m', m' ∈ r'.matchList ∧ m'.id = mid ∧
          m'.frames.getLast? = some ⟨m.frames.length + 1, sc, sc, m.player2Id⟩ ∧
          m'.player1FramesWon = m.player1FramesWon ∧
          m'.player2FramesWon = m.player2FramesWon + 1 := by
  intro d mid sc now m r hfind hbye hstat hp1 hp2 hne
  obtain ⟨hrmem, hmmem, hmid⟩ := findMatchInRounds_mem d.rounds mid m r hfind
  unfold addFrame
  rw [hfind]
  have hnotdec : ¬ (framesToWin d.league.bestOfFrames ≤ m.player1FramesWon ∨
      framesToWin d.league.bestOfFrames ≤ m.player2FramesWon) := by
    push_neg
    exact ⟨hp1, hp2⟩
  simp only [hbye, Bool.false_eq_true, if_false, hstat, if_neg hnotdec, lt_irrefl,
    if_neg hne, if_pos rfl, eq_self_iff_true, if_true, add_zero]
  refine ⟨_, rfl, ?_⟩
  rw [ite_recalc_rounds]
  dsimp only
  refine ⟨_, List.mem_map_of_mem _ hrmem, ?_⟩
  rw [if_pos rfl, updateRoundStatus_matchList]
  dsimp only
  refine ⟨_, List.mem_map_of_mem _ hmmem, ?_⟩
  rw [if_pos hmid]
  have hne1 : ¬ (framesToWin d.league.bestOfFrames ≤ m.player1FramesWon) :=
    Nat.not_le.mpr hp1
  rw [if_neg hne1]
  by_cases h2 : framesToWin d.league.bestOfFrames ≤ m.player2FramesWon + 1
  · rw [if_pos h2]
    exact ⟨hmid, by simp, rfl, rfl⟩
  · rw [if_neg h2]
    exact ⟨hmid, by simp, rfl, rfl⟩

/-- Witness for C9: a 40-40 frame on the pending match of `dPendingMatch`
is awarded to player 2. -/
theorem addFrame_equal_scores_awards_player2_witness :
    ∃ d', addFrame dPendingMatch 10 40 40 7 = Except.ok d' ∧
      ∃ r', r' ∈ d'.rounds ∧ ∃ m', m' ∈ r'.matchList ∧ m'.id = 10 ∧
        m'.frames.getLast? = some ⟨1, 40, 40, some 2⟩ ∧
        m'.player1FramesWon = 0 ∧ m'.player2FramesWon = 0 + 1 :=
  addFrame_equal_scores_awards_player2 dPendingMatch 10 40 7
    ⟨10, 1, some 2, Status.pending, [], 0, 0, none, false, none⟩
    ⟨1, Status.pending, [⟨10, 1, some 2, Status.pending, [], 0, 0, none, false, none⟩], 0⟩
    (by decide) (by decide) (by decide) (by decide) (by decide) (by decide)

/-! ## C10 — generateRound blindly appends a round numbered currentRound -/

/-- C10: `generateRound` always numbers the new round `league.currentRound`
and appends it without any duplicate or completeness check (first conjunct:
every successful run extends the round-number list by exactly
`currentRound`); consequently, generating twice without advancing the round
produces two rounds with the same `roundNumber` (second conjunct: a concrete
run on `dTwoFresh` yields round numbers `[1, 1]`). -/
theorem generateRound_duplicate_roundNumber :
    (∀ (s : LeagueData) (idBase now : Nat) (s' : LeagueData),
        generateRound s idBase now = Except.ok s' →
        s'.rounds.map Round.roundNumber
          = s.rounds.map Round.roundNumber ++ [s.league.currentRound]) ∧
    ((generateRound dTwoFresh 100 0).toOption.bind
        (fun s1 => (generateRound s1 200 1).toOption)).map
      (fun s => s.rounds.map Round.roundNumber) = some [1, 1] := by
  constructor
  · intro s idBase now s' h
    unfold generateRound at h
    cases hg : generatePairings s with
    | error e => rw [hg] at h; exact absurd h (by simp)
    | ok prs =>
      rw [hg] at h
      dsimp only at h
      split at h
      · exact absurd h (by simp)
      · have hs : s' = { s with
            rounds := s.rounds ++ [{ roundNumber := s.league.currentRound
                                     status := Status.pending
                                     matchList := (prs.enum).map (fun pi =>
                                       createMatchFromPairing pi.2 s.league.bestOfFrames
                                         (idBase + pi.1) now)
                                     generatedAt := now }]
            pairingHistory := s.pairingHistory ++ (prs.filter (fun pr => ¬ pr.isBye)).map
              (fun pr => (pr.player1.id,
                (match pr.player2 with | some q => q.id | none => pr.player1.id))) } := by
          injection h with h'
          exact h'.symm
        subst hs
        simp
  · decide

/-- Witness for C10's universally quantified conjunct at `dTwoFresh`. -/
theorem generateRound_duplicate_roundNumber_witness :
    ∃ s', generateRound dTwoFresh 100 0 = Except.ok s' ∧
      s'.rounds.map Round.roundNumber = [1] := by
  cases hg : generateRound dTwoFresh 100 0 with
  | error e =>
    have hne : (generateRound dTwoFresh 100 0).toOption.isSome = true := by decide
    rw [hg] at hne
    exact absurd hne (by simp [Except.toOption])
  | ok s' =>
    refine ⟨s', rfl, ?_⟩
    have := generateRound_duplicate_roundNumber.1 dTwoFresh 100 0 s' hg
    simpa using this

/-! ## Sorting lemmas for the pairing engine -/

/-- `insertLe` produces a permutation of consing. -/
theorem insertLe_perm (le : α → α → Bool) (x : α) :
    ∀ l : List α, (insertLe le x l).Perm (x :: l) := by
  intro l
  induction l with
  | nil => simp [insertLe]
  | cons y ys ih =>
    unfold insertLe
    by_cases h : le x y
    · rw [if_pos h]
    · rw [if_neg h]
      exact (ih.cons y).trans (List.Perm.swap x y ys)

/-- `sortLe` permutes its input. -/
theorem sortLe_perm (le : α → α → Bool) : ∀ l : List α, (sortLe le l).Perm l := by
  intro l
  induction l with
  | nil => simp [sortLe]
  | cons x xs ih =>
    unfold sortLe
    exact (insertLe_perm le x (sortLe le xs)).trans (ih.cons x)

/-- Membership in an `insertLe` result. -/
theorem mem_insertLe (le : α → α → Bool) (x : α) (l : List α) (z : α) :
    z ∈ insertLe le x l ↔ z = x ∨ z ∈ l := by
  constructor
  · intro h
    have := (insertLe_perm le x l).mem_iff.mp h
    simpa using this
  · intro h
    apply (insertLe_perm le x l).mem_iff.mpr
    simpa using h

/-- Inserting preserves pairwise sortedness of a totally pre-ordered `le`. -/
theorem insertLe_pairwise (le : α → α → Bool)
    (htot : ∀ a b, le a b ∨ le b a) (htr : ∀ a b c, le a b → le b c → le a c) (x : α) :
    ∀ l : List α, l.Pairwise (fun a b => le a b = true) →
      (insertLe le x l).Pairwise (fun a b => le a b = true) := by
  intro l
  induction l with
  | nil => intro _; simp [insertLe]
  | cons y ys ih =>
    intro hp
    rw [List.pairwise_cons] at hp
    obtain ⟨hy, hys⟩ := hp
    unfold insertLe
    by_cases h : le x y
    · rw [if_pos h]
      refine List.pairwise_cons.mpr ⟨?_, List.pairwise_cons.mpr ⟨hy, hys⟩⟩
      intro z hz
      rcases List.mem_cons.mp hz with rfl | hz
      · exact h
      · exact htr x y z h (hy z hz)
    · rw [if_neg h]
      refine List.pairwise_cons.mpr ⟨?_, ih hys⟩
      intro z hz
      rcases (mem_insertLe le x ys z).mp hz with rfl | hz
      · rcases htot z y with h1 | h1
        · exact absurd h1 h
        · exact h1
      · exact hy z hz

/-- `sortLe` output is pairwise ordered for a total transitive `le`. -/
theorem sortLe_pairwise (le : α → α → Bool)
    (htot : ∀ a b, le a b ∨ le b a) (htr : ∀ a b c, le a b → le b c → le a c) :
    ∀ l : List α, (sortLe le l).Pairwise (fun a b => le a b = true) := by
  intro l
  induction l with
  | nil => simp [sortLe]
  | cons x xs ih => exact insertLe_pairwise le htot htr x _ ih

/-- The head of a `sortLe` run is `le`-below every input element. -/
theorem sortLe_head_le (le : α → α → Bool)
    (htot : ∀ a b, le a b ∨ le b a) (htr : ∀ a b c, le a b → le b c → le a c)
    (l : List α) (a : α) (t : List α) (hs : sortLe le l = a :: t) :
    ∀ y ∈ l, le a y = true := by
  intro y hy
  have hmem : y ∈ a :: t := by
    rw [← hs]
    exact ((sortLe_perm le l).symm.mem_iff).mp hy
  rcases List.mem_cons.mp hmem with rfl | hmem
  · rcases htot y y with h | h <;> exact h
  · have hp := sortLe_pairwise le htot htr l
    rw [hs, List.pairwise_cons] at hp
    exact hp.1 y hmem

/-! ## pairLoop lemmas -/

/-- A list is a permutation of any element consed onto its own erasure. -/
theorem perm_get_cons_eraseIdx :
    ∀ (l : List α) (j : Nat) (h : j < l.length), l.Perm (l.get ⟨j, h⟩ :: l.eraseIdx j) := by
  intro l
  induction l with
  | nil => intro j h; simp at h
  | cons x xs ih =>
    intro j h
    cases j with
    | zero => simp [List.eraseIdx]
    | succ j' =>
      have hj' : j' < xs.length := by simpa using h
      have h1 := (ih j' hj').cons x
      have h2 := List.Perm.swap (xs.get ⟨j', hj'⟩) x (xs.eraseIdx j')
      rw [List.eraseIdx_cons_succ]
      exact h1.trans h2

/-- `findIdx?` (with default start index) returns the least satisfying
index. -/
theorem findIdx?_some_spec (p : α → Bool) :
    ∀ (l : List α) (j : Nat), l.findIdx? p = some j →
      ∃ h : j < l.length, p (l.get ⟨j, h⟩) = true ∧
        ∀ k, (hk : k < j) → p (l.get ⟨k, Nat.lt_trans hk h⟩) = false := by
  intro l
  induction l with
  | nil => intro j h; simp [List.findIdx?_nil] at h
  | cons x xs ih =>
    intro j h
    rw [List.findIdx?_cons] at h
    by_cases hp : p x = true
    · rw [if_pos hp] at h
      have hj : j = 0 := by simpa using h.symm
      subst hj
      exact ⟨Nat.succ_pos _, hp, fun k hk => absurd hk (Nat.not_lt_zero k)⟩
    · rw [if_neg hp] at h
      rw [List.findIdx?_succ] at h
      obtain ⟨j', hj', rfl⟩ : ∃ j', xs.findIdx? p = some j' ∧ j = j' + 1 := by
        cases hx : xs.findIdx? p with
        | none => rw [hx] at h; simp at h
        | some j0 =>
          rw [hx] at h
          simp only [Option.map_some', Option.some.injEq] at h
          exact ⟨j0, rfl, h.symm⟩
      obtain ⟨hlt, hpj, hbefore⟩ := ih j' hj'
      refine ⟨by simpa using Nat.succ_lt_succ hlt, by simpa using hpj, ?_⟩
      intro k hk
      cases k with
      | zero => simpa using hp
      | succ k' =>
        have hk' : k' < j' := by omega
        simpa using hbefore k' hk'

/-- `pairLoop` ignores the exact fuel as soon as it covers the list length. -/
theorem pairLoop_fuel_irrelevant (hist : List (Nat × Nat)) :
    ∀ (f1 f2 : Nat) (ps : List Player), ps.length ≤ f1 → ps.length ≤ f2 →
      pairLoop hist f1 ps = pairLoop hist f2 ps := by
  intro f1
  induction f1 with
  | zero =>
    intro f2 ps h1 h2
    have : ps = [] := List.eq_nil_of_length_eq_zero (Nat.le_zero.mp h1)
    subst this
    cases f2 <;> rfl
  | succ f1' ih =>
    intro f2 ps h1 h2
    match ps, f2 with
    | [], f2 => cases f2 <;> rfl
    | [x], f2 =>
      cases f2 with
      | zero => simp at h2
      | succ f2' => rfl
    | p1 :: c :: cs, f2 =>
      cases f2 with
      | zero => simp at h2
      | succ f2' =>
        have hlen : cs.length + 2 = (p1 :: c :: cs).length := by simp
        have h1' : cs.length + 1 ≤ f1' := by simp at h1; omega
        have h2' : cs.length + 1 ≤ f2' := by simp at h2; omega
        show pairLoop hist (f1' + 1) (p1 :: c :: cs) = pairLoop hist (f2' + 1) (p1 :: c :: cs)
        unfold pairLoop
        cases hidx : (c :: cs).findIdx? (fun x => ¬ hasPlayedBefore p1.id x.id hist) with
        | some j =>
          obtain ⟨hj, _, _⟩ := findIdx?_some_spec _ _ j hidx
          have herase : ((c :: cs).eraseIdx j).length = cs.length := by
            rw [List.length_eraseIdx, if_pos hj]
            simp
          dsimp only
          rw [ih f2' ((c :: cs).eraseIdx j) (by rw [herase]; omega) (by rw [herase]; omega)]
        | none =>
          have herase : ((c :: cs).eraseIdx 0).length = cs.length := by simp
          dsimp only
          rw [ih f2' ((c :: cs).eraseIdx 0) (by rw [herase]; omega) (by rw [herase]; omega)]

/-- One step of `pairAllPlayers` with the tail expressed through
`pairAllPlayers` again (fuel irrelevance). -/
theorem pairAllPlayers_cons_eq (p1 c : Player) (cs : List Player) (hist : List (Nat × Nat)) :
    pairAllPlayers (p1 :: c :: cs) hist =
      match (c :: cs).findIdx? (fun x => ¬ hasPlayedBefore p1.id x.id hist) with
      | some j => ⟨p1, (c :: cs)[j]?, false, false, 0⟩
            :: pairAllPlayers ((c :: cs).eraseIdx j) hist
      | none => ⟨p1, (c :: cs)[0]?, true, false, 0⟩
            :: pairAllPlayers ((c :: cs).eraseIdx 0) hist := by
  show pairLoop hist (cs.length + 2) (p1 :: c :: cs) = _
  unfold pairLoop
  cases hidx : (c :: cs).findIdx? (fun x => ¬ hasPlayedBefore p1.id x.id hist) with
  | some j =>
    obtain ⟨hj, _, _⟩ := findIdx?_some_spec _ _ j hidx
    have herase : ((c :: cs).eraseIdx j).length = cs.length := by
      rw [List.length_eraseIdx, if_pos hj]
      simp
    dsimp only
    rw [pairLoop_fuel_irrelevant hist (cs.length + 1) ((c :: cs).eraseIdx j).length _
      (by rw [herase]; omega) (le_refl _)]
    rfl
  | none =>
    have herase : ((c :: cs).eraseIdx 0).length = cs.length := by simp
    dsimp only
    rw [pairLoop_fuel_irrelevant hist (cs.length + 1) ((c :: cs).eraseIdx 0).length _
      (by rw [herase]; omega) (le_refl _)]
    rfl

/-! ## C6 — each pairing step takes the first never-played candidate -/

/-- C6: in each step of `pairAllPlayers`, the best-remaining player `p1` is
paired with the first candidate in rank order not played before (per
`pairingHistory`, unordered) and that pairing has `isRepeat = false`; when
every remaining candidate was played before, `p1` is paired with the
immediately next-ranked player and the pairing has `isRepeat = true`.  The
recursion continues on the remaining pool, so the property holds of every
step. -/
theorem pairAllPlayers_first_unplayed (p1 c : Player) (cs : List Player)
    (hist : List (Nat × Nat)) :
    (∃ (j : Nat) (hj : j < (c :: cs).length),
      hasPlayedBefore p1.id ((c :: cs).get ⟨j, hj⟩).id hist = false ∧
      (∀ k, (hk : k < j) →
        hasPlayedBefore p1.id ((c :: cs).get ⟨k, Nat.lt_trans hk hj⟩).id hist = true) ∧
      pairAllPlayers (p1 :: c :: cs) hist
        = ⟨p1, some ((c :: cs).get ⟨j, hj⟩), false, false, 0⟩
            :: pairAllPlayers ((c :: cs).eraseIdx j) hist) ∨
    ((∀ x ∈ c :: cs, hasPlayedBefore p1.id x.id hist = true) ∧
      pairAllPlayers (p1 :: c :: cs) hist
        = ⟨p1, some c, true, false, 0⟩ :: pairAllPlayers cs hist) := by
  rw [pairAllPlayers_cons_eq]
  cases hidx : (c :: cs).findIdx? (fun x => ¬ hasPlayedBefore p1.id x.id hist) with
  | some j =>
    left
    obtain ⟨hj, hpj, hbefore⟩ := findIdx?_some_spec _ _ j hidx
    refine ⟨j, hj, ?_, ?_, ?_⟩
    · simpa using hpj
    · intro k hk
      have := hbefore k hk
      simpa using this
    · dsimp only
      rw [List.getElem?_eq_getElem hj]
      rfl
  | none =>
    right
    refine ⟨?_, ?_⟩
    · intro x hx
      have := List.findIdx?_eq_none_iff.mp hidx x hx
      simpa using this
    · dsimp only
      rw [List.getElem?_cons_zero, List.eraseIdx_cons_zero]

/-- Every pairing `pairLoop` produces is a non-bye two-player pairing. -/
theorem pairLoop_shape (hist : List (Nat × Nat)) :
    ∀ (fuel : Nat) (ps : List Player) (pr : Pairing), pr ∈ pairLoop hist fuel ps →
      pr.isBye = false ∧ ∃ q, pr.player2 = some q := by
  intro fuel
  induction fuel with
  | zero => intro ps pr h; simp [pairLoop] at h
  | succ fuel' ih =>
    intro ps pr h
    match ps with
    | [] => simp [pairLoop] at h
    | [x] => simp [pairLoop] at h
    | p1 :: c :: cs =>
      unfold pairLoop at h
      cases hidx : (c :: cs).findIdx? (fun x => ¬ hasPlayedBefore p1.id x.id hist) with
      | some j =>
        rw [hidx] at h
        dsimp only at h
        obtain ⟨hj, _, _⟩ := findIdx?_some_spec _ _ j hidx
        rcases List.mem_cons.mp h with rfl | h
        · exact ⟨rfl, ⟨(c :: cs).get ⟨j, hj⟩, by rw [List.getElem?_eq_getElem hj]; rfl⟩⟩
        · exact ih _ pr h
      | none =>
        rw [hidx] at h
        dsimp only at h
        rcases List.mem_cons.mp h with rfl | h
        · exact ⟨rfl, ⟨c, by rw [List.getElem?_cons_zero]⟩⟩
        · exact ih _ pr h

/-- On an even-length pool with enough fuel, the ids covered by the produced
pairings permute the pool's ids. -/
theorem pairLoop_ids_perm (hist : List (Nat × Nat)) :
    ∀ (fuel : Nat) (ps : List Player), ps.length % 2 = 0 → ps.length ≤ fuel →
      ((pairLoop hist fuel ps).flatMap pairingEntryIds).Perm (ps.map Player.id) := by
  intro fuel
  induction fuel with
  | zero =>
    intro ps _ hf
    have : ps = [] := List.eq_nil_of_length_eq_zero (Nat.le_zero.mp hf)
    subst this
    simp [pairLoop]
  | succ fuel' ih =>
    intro ps hpar hf
    match ps with
    | [] => simp [pairLoop]
    | [x] => simp at hpar
    | p1 :: c :: cs =>
      have hcs : cs.length % 2 = 0 := by simp at hpar; omega
      unfold pairLoop
      cases hidx : (c :: cs).findIdx? (fun x => ¬ hasPlayedBefore p1.id x.id hist) with
      | some j =>
        obtain ⟨hj, _, _⟩ := findIdx?_some_spec _ _ j hidx
        have herase : ((c :: cs).eraseIdx j).length = cs.length := by
          rw [List.length_eraseIdx, if_pos hj]; simp
        dsimp only
        rw [List.getElem?_eq_getElem hj]
        have ihr := ih ((c :: cs).eraseIdx j) (by rw [herase]; exact hcs)
          (by rw [herase]; simp at hf; omega)
        have hperm : ((c :: cs).map Player.id).Perm
            (((c :: cs).get ⟨j, hj⟩).id :: ((c :: cs).eraseIdx j).map Player.id) := by
          have h1 := (perm_get_cons_eraseIdx (c :: cs) j hj).map Player.id
          simpa using h1
        simp only [List.flatMap_cons, pairingEntryIds]
        refine List.Perm.trans ?_ ((hperm.cons p1.id).symm)
        simp only [List.cons_append, List.nil_append]
        exact (ihr.cons _).cons _
      | none =>
        dsimp only
        rw [List.getElem?_cons_zero, List.eraseIdx_cons_zero]
        have ihr := ih cs hcs (by simp at hf; omega)
        simp only [List.flatMap_cons, pairingEntryIds]
        simp only [List.cons_append, List.nil_append, List.map_cons]
        exact (ihr.cons _).cons _

/-- On an even-length pool with enough fuel, `pairLoop` makes exactly
`length / 2` pairings. -/
theorem pairLoop_length (hist : List (Nat × Nat)) :
    ∀ (fuel : Nat) (ps : List Player), ps.length % 2 = 0 → ps.length ≤ fuel →
      (pairLoop hist fuel ps).length = ps.length / 2 := by
  intro fuel
  induction fuel with
  | zero =>
    intro ps _ hf
    have : ps = [] := List.eq_nil_of_length_eq_zero (Nat.le_zero.mp hf)
    subst this
    simp [pairLoop]
  | succ fuel' ih =>
    intro ps hpar hf
    match ps with
    | [] => simp [pairLoop]
    | [x] => simp at hpar
    | p1 :: c :: cs =>
      have hcs : cs.length % 2 = 0 := by simp at hpar; omega
      unfold pairLoop
      cases hidx : (c :: cs).findIdx? (fun x => ¬ hasPlayedBefore p1.id x.id hist) with
      | some j =>
        obtain ⟨hj, _, _⟩ := findIdx?_some_spec _ _ j hidx
        have herase : ((c :: cs).eraseIdx j).length = cs.length := by
          rw [List.length_eraseIdx, if_pos hj]; simp
        dsimp only
        rw [List.length_cons, ih ((c :: cs).eraseIdx j) (by rw [herase]; exact hcs)
          (by rw [herase]; simp at hf; omega), herase]
        simp
        omega
      | none =>
        dsimp only
        rw [List.eraseIdx_cons_zero, List.length_cons,
          ih cs hcs (by simp at hf; omega)]
        simp
        omega

/-- `pairAllPlayers` restated from `pairLoop_shape`. -/
theorem pairAllPlayers_shape (ps : List Player) (hist : List (Nat × Nat)) :
    ∀ pr ∈ pairAllPlayers ps hist, pr.isBye = false ∧ ∃ q, pr.player2 = some q :=
  pairLoop_shape hist ps.length ps

/-- `pairAllPlayers` restated from `pairLoop_ids_perm`. -/
theorem pairAllPlayers_ids_perm (ps : List Player) (hist : List (Nat × Nat))
    (hpar : ps.length % 2 = 0) :
    ((pairAllPlayers ps hist).flatMap pairingEntryIds).Perm (ps.map Player.id) :=
  pairLoop_ids_perm hist ps.length ps hpar (le_refl _)

/-- `pairAllPlayers` restated from `pairLoop_length`. -/
theorem pairAllPlayers_length (ps : List Player) (hist : List (Nat × Nat))
    (hpar : ps.length % 2 = 0) :
    (pairAllPlayers ps hist).length = ps.length / 2 :=
  pairLoop_length hist ps.length ps hpar (le_refl _)

/-- No pairing covers an id absent from the flattened id list. -/
theorem countP_hasId_of_count_zero :
    ∀ (prs : List Pairing) (pid : Nat),
      (prs.flatMap pairingEntryIds).count pid = 0 →
      prs.countP (fun pr => pairingHasId pr pid) = 0 := by
  intro prs pid
  induction prs with
  | nil => intro _; simp
  | cons pr rest ih =>
    intro h
    rw [List.flatMap_cons, List.count_append] at h
    have h1 : (pairingEntryIds pr).count pid = 0 := by omega
    have h2 : (rest.flatMap pairingEntryIds).count pid = 0 := by omega
    rw [List.countP_cons, ih h2]
    have : pairingHasId pr pid = false := by
      simp only [pairingHasId, decide_eq_false_iff_not]
      exact List.count_eq_zero.mp h1
    simp [this]

/-- An id occurring exactly once in the flattened id list is covered by
exactly one pairing. -/
theorem countP_hasId_of_count_one :
    ∀ (prs : List Pairing) (pid : Nat),
      (prs.flatMap pairingEntryIds).count pid = 1 →
      prs.countP (fun pr => pairingHasId pr pid) = 1 := by
  intro prs pid
  induction prs with
  | nil => intro h; simp at h
  | cons pr rest ih =>
    intro h
    rw [List.flatMap_cons, List.count_append] at h
    by_cases hin : pid ∈ pairingEntryIds pr
    · have h1 : 1 ≤ (pairingEntryIds pr).count pid := List.one_le_count_iff.mpr hin
      have h2 : (rest.flatMap pairingEntryIds).count pid = 0 := by omega
      rw [List.countP_cons, countP_hasId_of_count_zero rest pid h2]
      have : pairingHasId pr pid = true := by
        simp only [pairingHasId, decide_eq_true_eq]
        exact hin
      simp [this]
    · have h1 : (pairingEntryIds pr).count pid = 0 := List.count_eq_zero.mpr hin
      have h2 : (rest.flatMap pairingEntryIds).count pid = 1 := by omega
      rw [List.countP_cons, ih h2]
      have : pairingHasId pr pid = false := by
        simp only [pairingHasId, decide_eq_false_iff_not]
        exact hin
      simp [this]

/-- Equal min-max keys mean equal unordered id pairs. -/
theorem pairKey_eq_cases {a b c d : Nat}
    (h : (if a ≤ b then (a, b) else (b, a)) = (if c ≤ d then (c, d) else (d, c))) :
    (a = c ∧ b = d) ∨ (a = d ∧ b = c) := by
  by_cases h1 : a ≤ b <;> by_cases h2 : c ≤ d <;>
    simp only [h1, h2, if_true, if_false, Prod.mk.injEq, if_pos, if_neg] at h <;> tauto

/-- If no id is covered twice, the non-bye pairing keys are distinct. -/
theorem keys_nodup_of_count_le_one :
    ∀ (prs : List Pairing),
      (∀ pr ∈ prs, pr.isBye = false → ∃ q, pr.player2 = some q) →
      (∀ pid, (prs.flatMap pairingEntryIds).count pid ≤ 1) →
      ((prs.filter (fun pr => ¬ pr.isBye)).map pairingKey).Nodup := by
  intro prs
  induction prs with
  | nil => intro _ _; simp
  | cons pr rest ih =>
    intro hshape hcount
    have hcount' : ∀ pid, (rest.flatMap pairingEntryIds).count pid ≤ 1 := by
      intro pid
      have := hcount pid
      rw [List.flatMap_cons, List.count_append] at this
      omega
    have hshape' : ∀ pr' ∈ rest, pr'.isBye = false → ∃ q, pr'.player2 = some q :=
      fun pr' h => hshape pr' (List.mem_cons_of_mem _ h)
    by_cases hb : pr.isBye = true
    · rw [List.filter_cons_of_neg (by simp [hb])]
      exact ih hshape' hcount'
    · have hbf : pr.isBye = false := by simpa using hb
      rw [List.filter_cons_of_pos (by simp [hbf])]
      rw [List.map_cons, List.nodup_cons]
      refine ⟨?_, ih hshape' hcount'⟩
      intro hmem
      obtain ⟨pr', hpr'f, hkey⟩ := List.mem_map.mp hmem
      have hpr'rest : pr' ∈ rest := List.mem_of_mem_filter hpr'f
      have hpr'nb : pr'.isBye = false := by
        have := List.of_mem_filter hpr'f
        simpa using this
      obtain ⟨q, hq⟩ := hshape pr (List.mem_cons_self _ _) hbf
      obtain ⟨q', hq'⟩ := hshape' pr' hpr'rest hpr'nb
      have hentry : pairingEntryIds pr = [pr.player1.id, q.id] := by
        simp [pairingEntryIds, hq]
      have hentry' : pairingEntryIds pr' = [pr'.player1.id, q'.id] := by
        simp [pairingEntryIds, hq']
      have hkeys : (pr'.player1.id = pr.player1.id ∧ q'.id = q.id) ∨
          (pr'.player1.id = q.id ∧ q'.id = pr.player1.id) := by
        have : pairingKey pr' = pairingKey pr := hkey
        simp only [pairingKey, hq, hq'] at this
        exact pairKey_eq_cases this
      have hp1 : pr'.player1.id ∈ pairingEntryIds pr := by
        rw [hentry]
        rcases hkeys with ⟨h1, _⟩ | ⟨h1, _⟩
        · simp [h1]
        · simp [h1]
      have hp2 : pr'.player1.id ∈ rest.flatMap pairingEntryIds := by
        refine List.mem_flatMap.mpr ⟨pr', hpr'rest, ?_⟩
        rw [hentry']
        simp
      have hc := hcount pr'.player1.id
      rw [List.flatMap_cons, List.count_append] at hc
      have c1 : 1 ≤ (pairingEntryIds pr).count pr'.player1.id := List.one_le_count_iff.mpr hp1
      have c2 : 1 ≤ (rest.flatMap pairingEntryIds).count pr'.player1.id :=
        List.one_le_count_iff.mpr hp2
      omega

/-- The duplicate scan reports nothing when the keys are distinct and the
seen set holds none of them. -/
theorem dupErrors_eq_nil :
    ∀ (prs : List Pairing) (seen : List (Nat × Nat)),
      ((prs.filter (fun pr => ¬ pr.isBye)).map pairingKey).Nodup →
      (∀ pr ∈ prs, pr.isBye = false → pairingKey pr ∉ seen) →
      dupErrors prs seen = [] := by
  intro prs
  induction prs with
  | nil => intro seen _ _; rfl
  | cons pr rest ih =>
    intro seen hnodup hseen
    unfold dupErrors
    by_cases hb : pr.isBye = true
    · rw [if_pos hb]
      rw [List.filter_cons_of_neg (by simp [hb])] at hnodup
      exact ih seen hnodup (fun pr' h => hseen pr' (List.mem_cons_of_mem _ h))
    · have hbf : pr.isBye = false := by simpa using hb
      rw [if_neg (by simp [hbf])]
      rw [List.filter_cons_of_pos (by simp [hbf])] at hnodup
      rw [List.map_cons, List.nodup_cons] at hnodup
      rw [if_neg (hseen pr (List.mem_cons_self _ _) hbf)]
      refine ih (pairingKey pr :: seen) hnodup.2 ?_
      intro pr' hmem hnb
      simp only [List.mem_cons]
      push_neg
      refine ⟨?_, hseen pr' (List.mem_cons_of_mem _ hmem) hnb⟩
      intro heq
      exact hnodup.1 (List.mem_map.mpr ⟨pr', List.mem_filter_of_mem hmem (by simp [hnb]), heq⟩)

/-- Filtering out one id commutes with projecting ids. -/
theorem map_id_filter_ne (l : List Player) (v : Nat) :
    (l.filter (fun p => p.id ≠ v)).map Player.id = (l.map Player.id).filter (fun x => x ≠ v) := by
  induction l with
  | nil => rfl
  | cons x xs ih =>
    by_cases hx : x.id = v
    · rw [List.filter_cons_of_neg (by simp [hx]), List.map_cons,
        List.filter_cons_of_neg (by simp [hx]), ih]
    · rw [List.filter_cons_of_pos (by simp [hx]), List.map_cons, List.map_cons,
        List.filter_cons_of_pos (by simp [hx]), ih]

/-- A duplicate-free list permutes to a member consed on the rest. -/
theorem perm_cons_filter_ne (l : List Nat) (v : Nat) (hnd : l.Nodup) (hv : v ∈ l) :
    l.Perm (v :: l.filter (fun x => x ≠ v)) := by
  induction l with
  | nil => cases hv
  | cons x xs ih =>
    rcases List.mem_cons.mp hv with rfl | hv'
    · have hvnot : v ∉ xs := (List.nodup_cons.mp hnd).1
      have hxs : xs.filter (fun x => x ≠ v) = xs := by
        refine List.filter_eq_self.mpr ?_
        intro a ha
        simp only [decide_eq_true_eq]
        rintro rfl
        exact hvnot ha
      rw [List.filter_cons_of_neg (by simp), hxs]
    · have hnd' := (List.nodup_cons.mp hnd).2
      have hxv : x ≠ v := by
        rintro rfl
        exact (List.nodup_cons.mp hnd).1 hv'
      rw [List.filter_cons_of_pos (by simp [hxv])]
      exact ((ih hnd' hv').cons x).trans (List.Perm.swap v x _)

/-- On an even count of active players `generatePairings` succeeds with the
plain greedy pairing of the ranked players. -/
theorem generatePairings_even_shape (d : LeagueData)
    (h2 : 2 ≤ (d.players.filter (fun p => p.active)).length)
    (hpar : (d.players.filter (fun p => p.active)).length % 2 = 0) :
    generatePairings d = Except.ok
      (pairAllPlayers (sortByStandings (d.players.filter (fun p => p.active)))
        d.pairingHistory) := by
  unfold generatePairings
  rw [if_neg (by omega)]
  have hlen : (sortByStandings (d.players.filter (fun p => p.active))).length
      = (d.players.filter (fun p => p.active)).length :=
    (sortLe_perm standingsLe _).length_eq
  rw [if_neg (by rw [hlen]; omega)]

/-- On an odd count of active players `generatePairings` succeeds, removing
a bye recipient drawn from the ranked players and appending the bye. -/
theorem generatePairings_odd_shape (d : LeagueData)
    (h2 : 2 ≤ (d.players.filter (fun p => p.active)).length)
    (hpar : (d.players.filter (fun p => p.active)).length % 2 = 1) :
    ∃ b, selectByePlayer (sortByStandings (d.players.filter (fun p => p.active))) d.rounds
        = some b ∧
      b ∈ sortByStandings (d.players.filter (fun p => p.active)) ∧
      generatePairings d = Except.ok
        (pairAllPlayers
            ((sortByStandings (d.players.filter (fun p => p.active))).filter
              (fun p => p.id ≠ b.id))
            d.pairingHistory
          ++ [createByeMatch b d.league.bestOfFrames]) := by
  have hlen : (sortByStandings (d.players.filter (fun p => p.active))).length
      = (d.players.filter (fun p => p.active)).length :=
    (sortLe_perm standingsLe _).length_eq
  set sorted := sortByStandings (d.players.filter (fun p => p.active)) with hsorted
  have hbc : ∃ b, selectByePlayer sorted d.rounds = some b ∧ b ∈ sorted := by
    unfold selectByePlayer
    have hne : sorted.map (fun p => (p, byeCount d.rounds p)) ≠ [] := by
      intro hcontra
      have h0 := congrArg List.length hcontra
      rw [List.length_map, hlen] at h0
      simp only [List.length_nil] at h0
      omega
    have hne2 : sortLe (byeLe sorted) (sorted.map (fun p => (p, byeCount d.rounds p))) ≠ [] := by
      intro hcontra
      have hpl := (sortLe_perm (byeLe sorted)
        (sorted.map (fun p => (p, byeCount d.rounds p)))).length_eq
      rw [hcontra] at hpl
      exact hne (List.eq_nil_of_length_eq_zero hpl.symm)
    cases hhd : sortLe (byeLe sorted) (sorted.map (fun p => (p, byeCount d.rounds p))) with
    | nil => exact absurd hhd hne2
    | cons hd tl =>
      refine ⟨hd.1, ?_, ?_⟩
      · show (sortLe (byeLe sorted)
            (sorted.map (fun p => (p, byeCount d.rounds p)))).head?.map (fun x => x.1)
            = some hd.1
        rw [hhd]
        rfl
      have hmem : hd ∈ sorted.map (fun p => (p, byeCount d.rounds p)) := by
        have : hd ∈ sortLe (byeLe sorted) (sorted.map (fun p => (p, byeCount d.rounds p))) := by
          rw [hhd]; exact List.mem_cons_self _ _
        exact (sortLe_perm (byeLe sorted) _).mem_iff.mp this
      obtain ⟨p, hp, hpe⟩ := List.mem_map.mp hmem
      have : hd.1 = p := by rw [← hpe]
      rw [this]
      exact hp
  obtain ⟨b, hb, hbmem⟩ := hbc
  refine ⟨b, hb, hbmem, ?_⟩
  unfold generatePairings
  rw [if_neg (by omega)]
  rw [← hsorted, if_pos (by rw [hlen]; omega), hb]

/-- The validator accepts any pairing list whose covered ids permute the
distinct active ids, whose non-bye pairings carry two players, and which has
at most one bye. -/
theorem pairings_valid_of_perm (prs : List Pairing) (activePlayers : List Player)
    (hnd : (activePlayers.map Player.id).Nodup)
    (hperm : (prs.flatMap pairingEntryIds).Perm (activePlayers.map Player.id))
    (hshape : ∀ pr ∈ prs, pr.isBye = false → ∃ q, pr.player2 = some q)
    (hbyes : prs.countP (fun pr => pr.isBye) ≤ 1) :
    (∀ p ∈ activePlayers, prs.countP (fun pr => pairingHasId pr p.id) = 1) ∧
    ((prs.filter (fun pr => ¬ pr.isBye)).map pairingKey).Nodup ∧
    validatePairings prs activePlayers = ⟨true, []⟩ := by
  have hcount1 : ∀ p ∈ activePlayers, (prs.flatMap pairingEntryIds).count p.id = 1 := by
    intro p hp
    rw [hperm.count_eq]
    exact List.count_eq_one_of_mem hnd (List.mem_map_of_mem _ hp)
  have hcountle : ∀ pid, (prs.flatMap pairingEntryIds).count pid ≤ 1 := by
    intro pid
    rw [hperm.count_eq]
    exact List.nodup_iff_count_le_one.mp hnd pid
  have hknodup := keys_nodup_of_count_le_one prs hshape hcountle
  refine ⟨fun p hp => countP_hasId_of_count_one _ _ (hcount1 p hp), hknodup, ?_⟩
  have hmiss : activePlayers.filter (fun p => ¬ p.id ∈ prs.flatMap pairingEntryIds) = [] := by
    rw [List.filter_eq_nil_iff]
    intro p hp
    simp only [decide_eq_true_eq, Decidable.not_not, not_not]
    exact List.one_le_count_iff.mp (Nat.le_of_eq (hcount1 p hp).symm)
  have hdup := dupErrors_eq_nil prs [] hknodup (fun _ _ _ => List.not_mem_nil _)
  unfold validatePairings
  dsimp only
  rw [hmiss, hdup]
  rw [if_neg (Nat.not_lt.mpr hbyes)]
  rfl

/-! ## C5 — pairing completeness and self-validation -/

/-- C5: with `n ≥ 2` active players carrying distinct ids,
`generatePairings` succeeds with exactly `⌊n/2⌋` two-player pairings plus
`n mod 2` byes, every active player is covered by exactly one pairing, no
unordered pair of ids repeats among the non-bye pairings, and the engine's
own validator accepts the output with no errors. -/
theorem generatePairings_complete (d : LeagueData)
    (h2 : 2 ≤ (d.players.filter (fun p => p.active)).length)
    (hnd : ((d.players.filter (fun p => p.active)).map Player.id).Nodup) :
    ∃ prs, generatePairings d = Except.ok prs ∧
      prs.countP (fun pr => ¬ pr.isBye) = (d.players.filter (fun p => p.active)).length / 2 ∧
      prs.countP (fun pr => pr.isBye) = (d.players.filter (fun p => p.active)).length % 2 ∧
      (∀ p ∈ d.players.filter (fun p => p.active),
        prs.countP (fun pr => pairingHasId pr p.id) = 1) ∧
      ((prs.filter (fun pr => ¬ pr.isBye)).map pairingKey).Nodup ∧
      validatePairings prs (d.players.filter (fun p => p.active)) = ⟨true, []⟩ := by
  have hsortperm : (sortByStandings (d.players.filter (fun p => p.active))).Perm
      (d.players.filter (fun p => p.active)) := sortLe_perm _ _
  have hlen : (sortByStandings (d.players.filter (fun p => p.active))).length
      = (d.players.filter (fun p => p.active)).length := hsortperm.length_eq
  have hidperm : ((sortByStandings (d.players.filter (fun p => p.active))).map Player.id).Perm
      ((d.players.filter (fun p => p.active)).map Player.id) := hsortperm.map _
  by_cases hpar : (d.players.filter (fun p => p.active)).length % 2 = 0
  · -- even count: no bye
    refine ⟨_, generatePairings_even_shape d h2 hpar, ?_⟩
    have hshapes := pairAllPlayers_shape
      (sortByStandings (d.players.filter (fun p => p.active))) d.pairingHistory
    have hids : ((pairAllPlayers (sortByStandings (d.players.filter (fun p => p.active)))
          d.pairingHistory).flatMap pairingEntryIds).Perm
        ((sortByStandings (d.players.filter (fun p => p.active))).map Player.id) :=
      pairAllPlayers_ids_perm _ _ (by rw [hlen]; exact hpar)
    have hflat := hids.trans hidperm
    have hnb : (pairAllPlayers (sortByStandings (d.players.filter (fun p => p.active)))
        d.pairingHistory).countP (fun pr => ¬ pr.isBye)
        = (d.players.filter (fun p => p.active)).length / 2 := by
      rw [List.countP_eq_length.mpr (fun pr h => by simp [(hshapes pr h).1])]
      rw [pairAllPlayers_length _ _ (by rw [hlen]; exact hpar), hlen]
    have hbyes : (pairAllPlayers (sortByStandings (d.players.filter (fun p => p.active)))
        d.pairingHistory).countP (fun pr => pr.isBye) = 0 :=
      List.countP_eq_zero.mpr (fun pr h => by simp [(hshapes pr h).1])
    obtain ⟨c1, c2, c3⟩ := pairings_valid_of_perm _ _ hnd hflat
      (fun pr h _ => (hshapes pr h).2) (by omega)
    exact ⟨hnb, by omega, c1, c2, c3⟩
  · -- odd count: bye pairing appended
    have hpar1 : (d.players.filter (fun p => p.active)).length % 2 = 1 := by omega
    obtain ⟨b, hbs, hbmem, hshape⟩ := generatePairings_odd_shape d h2 hpar1
    refine ⟨_, hshape, ?_⟩
    have hndsorted : ((sortByStandings (d.players.filter (fun p => p.active))).map
        Player.id).Nodup := hidperm.nodup_iff.mpr hnd
    have hpid : ((sortByStandings (d.players.filter (fun p => p.active))).filter
          (fun p => p.id ≠ b.id)).map Player.id
        = ((sortByStandings (d.players.filter (fun p => p.active))).map Player.id).filter
          (fun x => x ≠ b.id) := map_id_filter_ne _ _
    have hbid : b.id ∈ (sortByStandings (d.players.filter (fun p => p.active))).map Player.id :=
      List.mem_map_of_mem _ hbmem
    have hperm2 := perm_cons_filter_ne _ b.id hndsorted hbid
    have hplen : ((sortByStandings (d.players.filter (fun p => p.active))).filter
        (fun p => p.id ≠ b.id)).length
        = (d.players.filter (fun p => p.active)).length - 1 := by
      have e1 := hperm2.length_eq
      have e2 : ((sortByStandings (d.players.filter (fun p => p.active))).filter
            (fun p => p.id ≠ b.id)).length
          = (((sortByStandings (d.players.filter (fun p => p.active))).map Player.id).filter
            (fun x => x ≠ b.id)).length := by
        rw [← hpid, List.length_map]
      rw [List.length_map, hlen] at e1
      rw [List.length_cons] at e1
      omega
    have hparp : ((sortByStandings (d.players.filter (fun p => p.active))).filter
        (fun p => p.id ≠ b.id)).length % 2 = 0 := by omega
    have hshapes := pairAllPlayers_shape
      ((sortByStandings (d.players.filter (fun p => p.active))).filter
        (fun p => p.id ≠ b.id)) d.pairingHistory
    have hids := pairAllPlayers_ids_perm
      ((sortByStandings (d.players.filter (fun p => p.active))).filter
        (fun p => p.id ≠ b.id)) d.pairingHistory hparp
    have hflat : (((pairAllPlayers ((sortByStandings (d.players.filter
            (fun p => p.active))).filter (fun p => p.id ≠ b.id)) d.pairingHistory)
          ++ [createByeMatch b d.league.bestOfFrames]).flatMap pairingEntryIds).Perm
        ((d.players.filter (fun p => p.active)).map Player.id) := by
      rw [List.flatMap_append]
      have hbentry : ([createByeMatch b d.league.bestOfFrames].flatMap pairingEntryIds)
          = [b.id] := rfl
      rw [hbentry]
      refine List.Perm.trans (List.perm_append_singleton _ _) ?_
      refine List.Perm.trans (hids.cons b.id) ?_
      rw [hpid]
      exact (hperm2.symm.trans hidperm)
    have hshapefull : ∀ pr ∈ (pairAllPlayers ((sortByStandings (d.players.filter
            (fun p => p.active))).filter (fun p => p.id ≠ b.id)) d.pairingHistory)
          ++ [createByeMatch b d.league.bestOfFrames],
        pr.isBye = false → ∃ q, pr.player2 = some q := by
      intro pr hpr hnb
      rcases List.mem_append.mp hpr with h | h
      · exact (hshapes pr h).2
      · rcases List.mem_singleton.mp h with rfl
        simp [createByeMatch] at hnb
    have hnbcount : ((pairAllPlayers ((sortByStandings (d.players.filter
            (fun p => p.active))).filter (fun p => p.id ≠ b.id)) d.pairingHistory)
          ++ [createByeMatch b d.league.bestOfFrames]).countP (fun pr => ¬ pr.isBye)
        = (d.players.filter (fun p => p.active)).length / 2 := by
      rw [List.countP_append]
      rw [List.countP_eq_length.mpr (fun pr h => by simp [(hshapes pr h).1])]
      rw [pairAllPlayers_length _ _ hparp, hplen]
      have : ([createByeMatch b d.league.bestOfFrames].countP (fun pr => ¬ pr.isBye)) = 0 := by
        simp [createByeMatch]
      rw [this]
      omega
    have hbyecount : ((pairAllPlayers ((sortByStandings (d.players.filter
            (fun p => p.active))).filter (fun p => p.id ≠ b.id)) d.pairingHistory)
          ++ [createByeMatch b d.league.bestOfFrames]).countP (fun pr => pr.isBye) = 1 := by
      rw [List.countP_append]
      rw [List.countP_eq_zero.mpr (fun pr h => by simp [(hshapes pr h).1])]
      simp [createByeMatch]
    obtain ⟨c1, c2, c3⟩ := pairings_valid_of_perm _ _ hnd hflat hshapefull (by omega)
    exact ⟨hnbcount, by omega, c1, c2, c3⟩

/-- Witness for C5 at the five-player league `dFivePlayers`. -/
theorem generatePairings_complete_witness :
    ∃ prs, generatePairings dFivePlayers = Except.ok prs ∧
      prs.countP (fun pr => ¬ pr.isBye)
        = (dFivePlayers.players.filter (fun p => p.active)).length / 2 ∧
      prs.countP (fun pr => pr.isBye)
        = (dFivePlayers.players.filter (fun p => p.active)).length % 2 ∧
      (∀ p ∈ dFivePlayers.players.filter (fun p => p.active),
        prs.countP (fun pr => pairingHasId pr p.id) = 1) ∧
      ((prs.filter (fun pr => ¬ pr.isBye)).map pairingKey).Nodup ∧
      validatePairings prs (dFivePlayers.players.filter (fun p => p.active)) = ⟨true, []⟩ :=
  generatePairings_complete dFivePlayers (by decide) (by decide)

/-- Unfolded meaning of the bye comparator. -/
theorem byeLe_eq_true_iff (s : List Player) (a b : Player × Nat) :
    byeLe s a b = true ↔
      (a.2 < b.2 ∨ (a.2 = b.2 ∧ s.indexOf b.1 ≤ s.indexOf a.1)) := by
  unfold byeLe
  by_cases h : a.2 = b.2
  · rw [if_neg (by omega)]
    simp only [decide_eq_true_eq]
    constructor
    · intro hle
      exact Or.inr ⟨h, hle⟩
    · rintro (hlt | ⟨_, hle⟩)
      · omega
      · exact hle
  · rw [if_pos h]
    simp only [decide_eq_true_eq]
    constructor
    · intro hlt
      exact Or.inl hlt
    · rintro (hlt | ⟨heq, _⟩)
      · exact hlt
      · exact absurd heq h

/-- The bye comparator is total. -/
theorem byeLe_total (s : List Player) (a b : Player × Nat) :
    byeLe s a b = true ∨ byeLe s b a = true := by
  rw [byeLe_eq_true_iff, byeLe_eq_true_iff]
  omega

/-- The bye comparator is transitive. -/
theorem byeLe_trans (s : List Player) (a b c : Player × Nat)
    (hab : byeLe s a b = true) (hbc : byeLe s b c = true) : byeLe s a c = true := by
  rw [byeLe_eq_true_iff] at hab hbc ⊢
  omega

/-! ## C7 — bye selection: fewest byes, lowest rank among ties -/

/-- C7: with an odd number (≥ 3) of distinct-id active players, the bye
recipient chosen by `generatePairings` has the minimum per-round bye count
(`byeCount`, the count `selectByePlayer` derives from the rounds); among
players tied on that minimum it is the one ranked lowest (largest index) in
the standings order; and its id appears in no pairing other than the final
bye pairing. -/
theorem generatePairings_bye_selection (d : LeagueData)
    (h2 : 2 ≤ (d.players.filter (fun p => p.active)).length)
    (hpar : (d.players.filter (fun p => p.active)).length % 2 = 1)
    (hnd : ((d.players.filter (fun p => p.active)).map Player.id).Nodup) :
    ∃ b prsHead,
      generatePairings d = Except.ok (prsHead ++ [createByeMatch b d.league.bestOfFrames]) ∧
      b ∈ sortByStandings (d.players.filter (fun p => p.active)) ∧
      (∀ p ∈ d.players.filter (fun p => p.active),
        byeCount d.rounds b ≤ byeCount d.rounds p ∧
        (byeCount d.rounds b = byeCount d.rounds p →
          (sortByStandings (d.players.filter (fun p => p.active))).indexOf p
            ≤ (sortByStandings (d.players.filter (fun p => p.active))).indexOf b)) ∧
      (∀ pr ∈ prsHead, pairingHasId pr b.id = false) := by
  obtain ⟨b, hbs, hbmem, hshape⟩ := generatePairings_odd_shape d h2 hpar
  have hsortperm : (sortByStandings (d.players.filter (fun p => p.active))).Perm
      (d.players.filter (fun p => p.active)) := sortLe_perm _ _
  have hlen := hsortperm.length_eq
  have hidperm := hsortperm.map Player.id
  refine ⟨b, _, hshape, hbmem, ?_, ?_⟩
  · -- minimality of the bye count, lowest rank among ties
    intro p hp
    have hpmem : p ∈ sortByStandings (d.players.filter (fun p => p.active)) :=
      hsortperm.symm.mem_iff.mp hp
    have hpbc : (p, byeCount d.rounds p)
        ∈ (sortByStandings (d.players.filter (fun p => p.active))).map
          (fun q => (q, byeCount d.rounds q)) := by
      exact List.mem_map_of_mem _ hpmem
    obtain ⟨hd, tl, hhd, hhd1⟩ : ∃ hd tl,
        sortLe (byeLe (sortByStandings (d.players.filter (fun p => p.active))))
          ((sortByStandings (d.players.filter (fun p => p.active))).map
            (fun q => (q, byeCount d.rounds q))) = hd :: tl ∧ hd.1 = b := by
      unfold selectByePlayer at hbs
      dsimp only at hbs
      cases hsl : sortLe (byeLe (sortByStandings (d.players.filter (fun p => p.active))))
          ((sortByStandings (d.players.filter (fun p => p.active))).map
            (fun q => (q, byeCount d.rounds q))) with
      | nil => rw [hsl] at hbs; simp at hbs
      | cons hd tl =>
        rw [hsl] at hbs
        simp only [List.head?_cons, Option.map_some', Option.some.injEq] at hbs
        exact ⟨hd, tl, rfl, hbs⟩
    have hhd2 : hd.2 = byeCount d.rounds b := by
      have hmem : hd ∈ (sortByStandings (d.players.filter (fun p => p.active))).map
          (fun q => (q, byeCount d.rounds q)) := by
        have : hd ∈ hd :: tl := List.mem_cons_self _ _
        rw [← hhd] at this
        exact (sortLe_perm _ _).mem_iff.mp this
      obtain ⟨q, _, hqe⟩ := List.mem_map.mp hmem
      have hq1 : q = hd.1 := by rw [← hqe]
      rw [← hqe]
      show byeCount d.rounds q = byeCount d.rounds b
      rw [hq1, hhd1]
    have hle := sortLe_head_le
      (byeLe (sortByStandings (d.players.filter (fun p => p.active))))
      (byeLe_total _) (byeLe_trans _) _ hd tl hhd
      (p, byeCount d.rounds p) hpbc
    rw [byeLe_eq_true_iff] at hle
    rw [hhd1] at hle
    rw [hhd2] at hle
    constructor
    · omega
    · intro heq
      rcases hle with hlt | ⟨_, hidx⟩
      · omega
      · exact hidx
  · -- the bye player id touches no other pairing
    intro pr hpr
    have hndsorted : ((sortByStandings (d.players.filter (fun p => p.active))).map
        Player.id).Nodup := hidperm.nodup_iff.mpr hnd
    have hpid := map_id_filter_ne
      (sortByStandings (d.players.filter (fun p => p.active))) b.id
    have hbid : b.id ∈ (sortByStandings (d.players.filter (fun p => p.active))).map Player.id :=
      List.mem_map_of_mem _ hbmem
    have hperm2 := perm_cons_filter_ne _ b.id hndsorted hbid
    have hplen : ((sortByStandings (d.players.filter (fun p => p.active))).filter
        (fun p => p.id ≠ b.id)).length
        = (d.players.filter (fun p => p.active)).length - 1 := by
      have e1 := hperm2.length_eq
      have e2 : ((sortByStandings (d.players.filter (fun p => p.active))).filter
            (fun p => p.id ≠ b.id)).length
          = (((sortByStandings (d.players.filter (fun p => p.active))).map Player.id).filter
            (fun x => x ≠ b.id)).length := by
        rw [← hpid, List.length_map]
      rw [List.length_map, hlen, List.length_cons] at e1
      omega
    have hparp : ((sortByStandings (d.players.filter (fun p => p.active))).filter
        (fun p => p.id ≠ b.id)).length % 2 = 0 := by omega
    have hids := pairAllPlayers_ids_perm
      ((sortByStandings (d.players.filter (fun p => p.active))).filter
        (fun p => p.id ≠ b.id)) d.pairingHistory hparp
    by_contra hcontra
    have htrue : pairingHasId pr b.id = true := by
      cases h : pairingHasId pr b.id with
      | false => exact absurd h hcontra
      | true => rfl
    have hin : b.id ∈ pairingEntryIds pr := by
      simpa [pairingHasId] using htrue
    have hinflat : b.id ∈ (pairAllPlayers ((sortByStandings (d.players.filter
          (fun p => p.active))).filter (fun p => p.id ≠ b.id)) d.pairingHistory).flatMap
        pairingEntryIds :=
      List.mem_flatMap.mpr ⟨pr, hpr, hin⟩
    have hinpair : b.id ∈ ((sortByStandings (d.players.filter (fun p => p.active))).filter
        (fun p => p.id ≠ b.id)).map Player.id := hids.mem_iff.mp hinflat
    obtain ⟨q, hq, hqe⟩ := List.mem_map.mp hinpair
    have := List.of_mem_filter hq
    simp only [decide_eq_true_eq] at this
    exact this hqe

/-- Witness for C7 at `dFivePlayers`: the bye goes to the bottom-ranked
player 5, who has no byes yet and appears in no other pairing. -/
theorem generatePairings_bye_selection_witness :
    ∃ b prsHead,
      generatePairings dFivePlayers
        = Except.ok (prsHead ++ [createByeMatch b dFivePlayers.league.bestOfFrames]) ∧
      b ∈ sortByStandings (dFivePlayers.players.filter (fun p => p.active)) ∧
      (∀ p ∈ dFivePlayers.players.filter (fun p => p.active),
        byeCount dFivePlayers.rounds b ≤ byeCount dFivePlayers.rounds p ∧
        (byeCount dFivePlayers.rounds b = byeCount dFivePlayers.rounds p →
          (sortByStandings (dFivePlayers.players.filter (fun p => p.active))).indexOf p
            ≤ (sortByStandings (dFivePlayers.players.filter (fun p => p.active))).indexOf b)) ∧
      (∀ pr ∈ prsHead, pairingHasId pr b.id = false) :=
  generatePairings_bye_selection dFivePlayers (by decide) (by decide) (by decide)

/-- The pass-1 part of `computeStats` is independent of the players list. -/
theorem statsKey_computeStats (ps : List Player) (rounds : List Round) (pid : Nat) :
    statsKey (computeStats ps rounds pid) = settledKey rounds pid := by
  unfold settledKey computeStats
  by_cases h : (pass1 rounds pid).2.length > 0
  · rw [if_pos h, if_pos h]
    rfl
  · rw [if_neg h, if_neg h]

/-- `recalculatePlayerStats` preserves the league object. -/
theorem recalculatePlayerStats_league (d : LeagueData) (pid : Nat) :
    (recalculatePlayerStats d pid).league = d.league := by
  unfold recalculatePlayerStats updatePlayer; split <;> rfl

/-- `recalculatePlayerStats` preserves the pairing history. -/
theorem recalculatePlayerStats_pairingHistory (d : LeagueData) (pid : Nat) :
    (recalculatePlayerStats d pid).pairingHistory = d.pairingHistory := by
  unfold recalculatePlayerStats updatePlayer; split <;> rfl

/-- `foldIds` preserves the rounds. -/
theorem foldIds_rounds : ∀ (L : List Nat) (u : LeagueData), (foldIds u L).rounds = u.rounds := by
  intro L
  induction L with
  | nil => intro u; rfl
  | cons pid L' ih =>
    intro u
    show (foldIds (recalculatePlayerStats u pid) L').rounds = u.rounds
    rw [ih, recalculatePlayerStats_rounds]

/-- `foldIds` preserves the league object. -/
theorem foldIds_league : ∀ (L : List Nat) (u : LeagueData), (foldIds u L).league = u.league := by
  intro L
  induction L with
  | nil => intro u; rfl
  | cons pid L' ih =>
    intro u
    show (foldIds (recalculatePlayerStats u pid) L').league = u.league
    rw [ih, recalculatePlayerStats_league]

/-- `foldIds` preserves the pairing history. -/
theorem foldIds_pairingHistory :
    ∀ (L : List Nat) (u : LeagueData), (foldIds u L).pairingHistory = u.pairingHistory := by
  intro L
  induction L with
  | nil => intro u; rfl
  | cons pid L' ih =>
    intro u
    show (foldIds (recalculatePlayerStats u pid) L').pairingHistory = u.pairingHistory
    rw [ih, recalculatePlayerStats_pairingHistory]

/-- `recalculateAllPlayerStats` is `foldIds` over the state's own id list. -/
theorem recalculateAllPlayerStats_eq_foldIds (d : LeagueData) :
    recalculateAllPlayerStats d = foldIds d (d.players.map Player.id) := by
  unfold recalculateAllPlayerStats foldIds
  rw [List.foldl_map]

/-- Opponent win-rate contributions agree on key-equal player lists. -/
theorem oppWinRate_congr :
    ∀ {l₁ l₂ : List Player},
      List.Forall₂ (fun p q => playerKey p = playerKey q) l₁ l₂ →
      ∀ oid, oppWinRate l₁ oid = oppWinRate l₂ oid := by
  intro l₁ l₂ h
  induction h with
  | nil => intro oid; rfl
  | cons hpq _ ih =>
    intro oid
    rename_i p q l₁' l₂' _
    have hid : p.id = q.id := congrArg (fun k => k.1) hpq
    have hplayed : p.stats.matchesPlayed = q.stats.matchesPlayed :=
      congrArg (fun k => k.2.2.2.1) hpq
    have hwon : p.stats.matchesWon = q.stats.matchesWon :=
      congrArg (fun k => k.2.2.2.2.1) hpq
    unfold oppWinRate
    rw [List.find?_cons, List.find?_cons]
    by_cases hc : (some p.id = oid)
    · have hc2 : some q.id = oid := by rw [← hid]; exact hc
      simp only [hc, hc2, decide_True]
      rw [hplayed, hwon]
    · have hc2 : ¬ some q.id = oid := by rw [← hid]; exact hc
      simp only [hc, hc2, decide_False]
      exact ih oid

/-- Opponent points contributions agree on key-equal player lists. -/
theorem oppPoints_congr :
    ∀ {l₁ l₂ : List Player},
      List.Forall₂ (fun p q => playerKey p = playerKey q) l₁ l₂ →
      ∀ oid, oppPoints l₁ oid = oppPoints l₂ oid := by
  intro l₁ l₂ h
  induction h with
  | nil => intro oid; rfl
  | cons hpq _ ih =>
    intro oid
    rename_i p q l₁' l₂' _
    have hid : p.id = q.id := congrArg (fun k => k.1) hpq
    have hpts : p.stats.points = q.stats.points :=
      congrArg (fun k => k.2.2.2.2.2.2.2.2.1) hpq
    unfold oppPoints
    rw [List.find?_cons, List.find?_cons]
    by_cases hc : (some p.id = oid)
    · have hc2 : some q.id = oid := by rw [← hid]; exact hc
      simp only [hc, hc2, decide_True]
      exact hpts
    · have hc2 : ¬ some q.id = oid := by rw [← hid]; exact hc
      simp only [hc, hc2, decide_False]
      exact ih oid

/-- `computeStats` agrees on key-equal player lists. -/
theorem computeStats_congr {l₁ l₂ : List Player}
    (h : List.Forall₂ (fun p q => playerKey p = playerKey q) l₁ l₂)
    (rounds : List Round) (pid : Nat) :
    computeStats l₁ rounds pid = computeStats l₂ rounds pid := by
  have hw : oppWinRate l₁ = oppWinRate l₂ := funext (oppWinRate_congr h)
  have hp : oppPoints l₁ = oppPoints l₂ := funext (oppPoints_congr h)
  unfold computeStats
  rw [hw, hp]

/-- After folding over `L`, every player whose id was processed carries the
settled pass-1 stats; untouched players keep their key. -/
theorem foldIds_playerKey :
    ∀ (L : List Nat) (u : LeagueData),
      (foldIds u L).players.map playerKey
        = u.players.map (fun p =>
            if p.id ∈ L then (p.id, p.name, p.active, settledKey u.rounds p.id)
            else playerKey p) := by
  intro L
  induction L with
  | nil =>
    intro u
    refine (List.map_congr_left ?_).symm
    intro p _
    rw [if_neg (List.not_mem_nil p.id)]
  | cons pid L' ih =>
    intro u
    show (foldIds (recalculatePlayerStats u pid) L').players.map playerKey = _
    rw [ih (recalculatePlayerStats u pid), recalculatePlayerStats_rounds]
    unfold recalculatePlayerStats
    cases hf : u.players.find? (fun p => p.id = pid) with
    | none =>
      have hnone : ∀ p ∈ u.players, p.id ≠ pid := by
        intro p hp
        have := List.find?_eq_none.mp hf p hp
        simpa using this
      refine List.map_congr_left ?_
      intro p hp
      have : (p.id ∈ pid :: L') ↔ (p.id ∈ L') := by
        simp [List.mem_cons, hnone p hp]
      by_cases hm : p.id ∈ L'
      · rw [if_pos hm, if_pos (this.mpr hm)]
      · rw [if_neg hm, if_neg (fun hc => hm (this.mp hc))]
    | some p0 =>
      show ((updatePlayer u pid (computeStats u.players u.rounds pid)).players.map _) = _
      unfold updatePlayer
      rw [List.map_map]
      refine List.map_congr_left ?_
      intro p hp
      by_cases hpid : p.id = pid
      · have hmem : p.id ∈ pid :: L' := by simp [hpid]
        rw [if_pos hmem]
        simp only [Function.comp_apply, if_pos hpid]
        by_cases hmem' : p.id ∈ L'
        · rw [if_pos hmem']
        · rw [if_neg hmem']
          show playerKey { p with stats := computeStats u.players u.rounds pid } = _
          unfold playerKey
          rw [statsKey_computeStats]
          rw [hpid]
      · simp only [Function.comp_apply, if_neg hpid]
        have hiff : (p.id ∈ pid :: L') ↔ (p.id ∈ L') := by simp [List.mem_cons, hpid]
        by_cases hmem' : p.id ∈ L'
        · rw [if_pos hmem', if_pos (hiff.mpr hmem')]
        · rw [if_neg hmem', if_neg (fun hc => hmem' (hiff.mp hc))]

/-- Pointwise-equal lists are equal. -/
theorem forall₂_eq_eq : ∀ {l₁ l₂ : List Player},
    List.Forall₂ (fun p q => p = q) l₁ l₂ → l₁ = l₂ := by
  intro l₁ l₂ h
  induction h with
  | nil => rfl
  | cons hpq _ ih => rw [hpq, ih]

/-- Key-equal player lists fail a `find?` by id together. -/
theorem find?_id_none_congr :
    ∀ {l₁ l₂ : List Player},
      List.Forall₂ (fun p q => playerKey p = playerKey q) l₁ l₂ →
      ∀ pid, (l₁.find? (fun p => p.id = pid) = none ↔ l₂.find? (fun p => p.id = pid) = none) := by
  intro l₁ l₂ h
  induction h with
  | nil => intro pid; exact Iff.rfl
  | cons hpq _ ih =>
    intro pid
    rename_i p q l₁' l₂' _
    have hid : p.id = q.id := congrArg (fun k => k.1) hpq
    rw [List.find?_cons, List.find?_cons]
    by_cases hc : (p.id = pid)
    · simp only [hc, hid ▸ hc, decide_True]
      simp
    · have hc2 : ¬ (q.id = pid) := by rw [← hid]; exact hc
      simp only [hc, hc2, decide_False]
      exact ih pid

/-- When no listed player carries the processed id, the id can be dropped
from the synchronisation set. -/
theorem forall₂_keyAndSync_shrink :
    ∀ {l₁ l₂ : List Player} {pid : Nat} {L' : List Nat},
      (∀ x ∈ l₁, x.id ≠ pid) →
      List.Forall₂ (keyAndSync (pid :: L')) l₁ l₂ →
      List.Forall₂ (keyAndSync L') l₁ l₂ := by
  intro l₁ l₂ pid L' hne h
  induction h with
  | nil => exact List.Forall₂.nil
  | cons hpq htail ih =>
    rename_i p q l₁' l₂'
    refine List.Forall₂.cons ⟨hpq.1, ?_⟩ (ih (fun x hx => hne x (List.mem_cons_of_mem _ hx)))
    rcases hpq.2 with rfl | hmem
    · exact Or.inl rfl
    · rcases List.mem_cons.mp hmem with heq | hmem'
      · exact absurd heq (hne p (List.mem_cons_self _ _))
      · exact Or.inr hmem'

/-- Updating both lists with the same recomputed stats record preserves the
invariant and settles the processed id. -/
theorem forall₂_keyAndSync_update :
    ∀ {l₁ l₂ : List Player} {pid : Nat} {L' : List Nat} (cs : Stats),
      List.Forall₂ (keyAndSync (pid :: L')) l₁ l₂ →
      List.Forall₂ (keyAndSync L')
        (l₁.map (fun p => if p.id = pid then { p with stats := cs } else p))
        (l₂.map (fun p => if p.id = pid then { p with stats := cs } else p)) := by
  intro l₁ l₂ pid L' cs h
  induction h with
  | nil => exact List.Forall₂.nil
  | cons hpq htail ih =>
    rename_i p q l₁' l₂'
    rw [List.map_cons, List.map_cons]
    refine List.Forall₂.cons ?_ ih
    have hid : p.id = q.id := congrArg (fun k => k.1) hpq.1
    have hname : p.name = q.name := congrArg (fun k => k.2.1) hpq.1
    have hactive : p.active = q.active := congrArg (fun k => k.2.2.1) hpq.1
    by_cases hc : p.id = pid
    · rw [if_pos hc, if_pos (by rw [← hid]; exact hc)]
      constructor
      · unfold playerKey
        rw [hid, hname, hactive]
      · exact Or.inl (by rw [hid, hname, hactive])
    · rw [if_neg hc, if_neg (by rw [← hid]; exact hc)]
      refine ⟨hpq.1, ?_⟩
      rcases hpq.2 with rfl | hmem
      · exact Or.inl rfl
      · rcases List.mem_cons.mp hmem with heq | hmem'
        · exact absurd heq hc
        · exact Or.inr hmem'

/-- Two states agreeing on league, rounds, history, player keys, and
synchronised on all ids still to process, fold to the same state. -/
theorem foldIds_congr :
    ∀ (L : List Nat) (u₁ u₂ : LeagueData),
      u₁.league = u₂.league → u₁.rounds = u₂.rounds →
      u₁.pairingHistory = u₂.pairingHistory →
      List.Forall₂ (keyAndSync L) u₁.players u₂.players →
      foldIds u₁ L = foldIds u₂ L := by
  intro L
  induction L with
  | nil =>
    intro u₁ u₂ hl hr hh hf
    have hp : u₁.players = u₂.players := by
      refine forall₂_eq_eq (hf.imp ?_)
      intro p q hpq
      rcases hpq.2 with rfl | hmem
      · rfl
      · exact absurd hmem (List.not_mem_nil _)
    cases u₁; cases u₂
    simp only at hl hr hh hp
    rw [hl, hr, hh, hp]
  | cons pid L' ih =>
    intro u₁ u₂ hl hr hh hf
    show foldIds (recalculatePlayerStats u₁ pid) L'
        = foldIds (recalculatePlayerStats u₂ pid) L'
    have hkeys : List.Forall₂ (fun p q => playerKey p = playerKey q) u₁.players u₂.players :=
      hf.imp (fun _ _ h => h.1)
    unfold recalculatePlayerStats
    cases hf1 : u₁.players.find? (fun p => p.id = pid) with
    | none =>
      have hf2 : u₂.players.find? (fun p => p.id = pid) = none :=
        (find?_id_none_congr hkeys pid).mp hf1
      rw [hf2]
      dsimp only
      refine ih u₁ u₂ hl hr hh ?_
      refine forall₂_keyAndSync_shrink ?_ hf
      intro x hx
      have := List.find?_eq_none.mp hf1 x hx
      simpa using this
    | some p1 =>
      cases hf2 : u₂.players.find? (fun p => p.id = pid) with
      | none =>
        have hcontra := (find?_id_none_congr hkeys pid).mpr hf2
        rw [hf1] at hcontra
        exact absurd hcontra (by simp)
      | some p2 =>
        dsimp only
        have hcs : computeStats u₁.players u₁.rounds pid
            = computeStats u₂.players u₂.rounds pid := by
          rw [hr]
          exact computeStats_congr hkeys u₂.rounds pid
        refine ih _ _ hl hr hh ?_
        show List.Forall₂ (keyAndSync L') (u₁.players.map _) (u₂.players.map _)
        rw [hcs]
        exact forall₂_keyAndSync_update _ hf

/-- One full recomputation settles the pass-1 part of every player key. -/
theorem recalculateAllPlayerStats_playerKey (d : LeagueData) :
    (recalculateAllPlayerStats d).players.map playerKey
      = d.players.map (fun p => settledOfKey d.rounds (playerKey p)) := by
  rw [recalculateAllPlayerStats_eq_foldIds, foldIds_playerKey]
  refine List.map_congr_left ?_
  intro p hp
  rw [if_pos (List.mem_map_of_mem _ hp)]
  rfl

/-- The second and third recomputations see identical player keys. -/
theorem recalcAll_twice_playerKey (d : LeagueData) :
    (recalculateAllPlayerStats (recalculateAllPlayerStats d)).players.map playerKey
      = (recalculateAllPlayerStats d).players.map playerKey := by
  have hr : (recalculateAllPlayerStats d).rounds = d.rounds := by
    rw [recalculateAllPlayerStats_eq_foldIds, foldIds_rounds]
  rw [recalculateAllPlayerStats_playerKey (recalculateAllPlayerStats d), hr]
  rw [show (fun p => settledOfKey d.rounds (playerKey p))
      = (settledOfKey d.rounds) ∘ playerKey from rfl]
  rw [← List.map_map, recalculateAllPlayerStats_playerKey d, List.map_map]
  exact List.map_congr_left (fun p _ => rfl)

/-- Equal player-key maps yield the fold invariant for the full id list. -/
theorem forall₂_of_key_maps :
    ∀ {l₁ l₂ : List Player}, l₁.map playerKey = l₂.map playerKey →
      List.Forall₂ (keyAndSync (l₁.map Player.id)) l₁ l₂ := by
  intro l₁
  induction l₁ with
  | nil =>
    intro l₂ h
    cases l₂ with
    | nil => exact List.Forall₂.nil
    | cons q qs => simp at h
  | cons p ps ih =>
    intro l₂ h
    cases l₂ with
    | nil => simp at h
    | cons q qs =>
      simp only [List.map_cons, List.cons.injEq] at h
      refine List.Forall₂.cons ⟨h.1, Or.inr (by simp)⟩ ?_
      refine (ih h.2).imp ?_
      intro a b hab
      exact ⟨hab.1, hab.2.imp id (fun hm => List.mem_cons_of_mem _ hm)⟩

/-! ## C3 (amended) — recomputation settles from the second pass on -/

/-- C3 amended: `recalculateAllPlayerStats` is not idempotent (see the
counterexample), but applying it twice reaches a fixed point of further
applications: for every league state,
`recalcAll (recalcAll d) = recalcAll (recalcAll (recalcAll d))`.  The pass-1
stats are pure functions of the rounds, so after one full pass every later
pass reads settled opponent aggregates and computes identical SOS/Buchholz
values (SOS modelled with exact rationals in place of JS floats). -/
theorem recalculateAllPlayerStats_settles (d : LeagueData) :
    recalculateAllPlayerStats (recalculateAllPlayerStats d)
      = recalculateAllPlayerStats (recalculateAllPlayerStats (recalculateAllPlayerStats d)) := by
  have hkeymaps : (recalculateAllPlayerStats d).players.map playerKey
      = (recalculateAllPlayerStats (recalculateAllPlayerStats d)).players.map playerKey :=
    (recalcAll_twice_playerKey d).symm
  have hproj : ∀ (l : List Player), l.map Player.id = (l.map playerKey).map (fun k => k.1) := by
    intro l
    rw [List.map_map]
    rfl
  have hidmaps : (recalculateAllPlayerStats d).players.map Player.id
      = (recalculateAllPlayerStats (recalculateAllPlayerStats d)).players.map Player.id := by
    rw [hproj, hproj, hkeymaps]
  have hl : (recalculateAllPlayerStats d).league
      = (recalculateAllPlayerStats (recalculateAllPlayerStats d)).league := by
    rw [recalculateAllPlayerStats_eq_foldIds (recalculateAllPlayerStats d), foldIds_league]
  have hr : (recalculateAllPlayerStats d).rounds
      = (recalculateAllPlayerStats (recalculateAllPlayerStats d)).rounds := by
    rw [recalculateAllPlayerStats_eq_foldIds (recalculateAllPlayerStats d), foldIds_rounds]
  have hh : (recalculateAllPlayerStats d).pairingHistory
      = (recalculateAllPlayerStats (recalculateAllPlayerStats d)).pairingHistory := by
    rw [recalculateAllPlayerStats_eq_foldIds (recalculateAllPlayerStats d), foldIds_pairingHistory]
  have hforall := forall₂_of_key_maps hkeymaps
  refine (recalculateAllPlayerStats_eq_foldIds (recalculateAllPlayerStats d)).trans ?_
  refine Eq.trans ?_
    (recalculateAllPlayerStats_eq_foldIds
      (recalculateAllPlayerStats (recalculateAllPlayerStats d))).symm
  rw [← hidmaps]
  exact foldIds_congr _ _ _ hl hr hh hforall
